import Mathlib

/-!
Verification of the cdp_pipeline negotiation core.

This file gives a shallow embedding of the Python sources
`cdp_pipeline/{breakpoint,core,executor,pipeline}.py` and proves the
specified properties about it.

Modelling conventions:
- Python floats are modelled as rationals (`ℚ`); float rounding is not
  modelled, so arithmetic identities hold exactly.
- File paths are modelled structurally as directory/stem/extension
  triples mirroring the `pathlib.Path` operations the code uses.
- External programs (`sfprops`, `sndinfo`, `housekeep`, `pvoc`,
  `submix`, and the per-operation CDP programs) are oracles supplied in
  an environment record; invoking one is recorded in the state and may
  fail, mirroring a raised `sh` error.
- Stateful executor code is embedded in a state monad
  `Env → St → Except Err α × St`; the state survives an exception, as
  Python side effects do.
- The textual serialization of a breakpoint file (`"%.6f %.6f"` lines)
  is abstracted to the list of resolved (time, value) pairs it encodes;
  no claim concerns the decimal rendering.
-/

namespace Cdp

/-! ### breakpoint.py: `BreakpointValue`, `Breakpoint` -/

/-- The `time` field of a `BreakpointValue` is `Union[float, str]`: a
number, a percentage string such as `"50%"`, or a plain numeric string
(`float(s)` parses it, `endswith('%')` is false). -/
inductive BPTime
  | num (t : ℚ)
  | strPct (p : ℚ)
  | strNum (t : ℚ)
deriving DecidableEq, Repr

/-- A single breakpoint (time, value) pair. -/
structure BreakpointValue where
  time : BPTime
  value : ℚ
deriving DecidableEq, Repr

/-- `BreakpointValue.is_percentage`: the time is a string ending in `%`. -/
def BPTime.is_percentage : BPTime → Bool
  | .strPct _ => true
  | _ => false

/-- `BreakpointValue.get_absolute_time`: percentages resolve to
`(percentage / 100.0) * duration`; everything else through `float`. -/
def BreakpointValue.get_absolute_time (p : BreakpointValue) (duration : ℚ) : ℚ :=
  match p.time with
  | .strPct pct => pct / 100 * duration
  | .num t => t
  | .strNum t => t

/-- A breakpoint automation curve. -/
structure Breakpoint where
  points : List BreakpointValue := []
  name : Option String := none
deriving DecidableEq, Repr

/-- `Breakpoint.add` appends a point. -/
def Breakpoint.add (bp : Breakpoint) (time : BPTime) (value : ℚ) : Breakpoint :=
  { bp with points := bp.points ++ [⟨time, value⟩] }

/-- Ordering used by `result.sort(key=lambda x: x[0])`: compare resolved
times only. -/
def bpLe (a b : ℚ × ℚ) : Prop := a.1 ≤ b.1

instance : DecidableRel bpLe := fun a b => inferInstanceAs (Decidable (a.1 ≤ b.1))

instance : IsTotal (ℚ × ℚ) bpLe := ⟨fun a b => le_total a.1 b.1⟩

instance : IsTrans (ℚ × ℚ) bpLe := ⟨fun _ _ _ h₁ h₂ => le_trans h₁ h₂⟩

/-- The non-fatal diagnostic emitted by `to_absolute_times`, naming the
offending original time and the file duration. -/
structure BPWarning where
  original_time : ℚ
  duration : ℚ
deriving DecidableEq, Repr

/-- `Breakpoint.to_absolute_times`: resolve every point against
`duration`, sort the result ascending by time (Python `list.sort` is a
stable ascending sort, modelled by `List.insertionSort`), and emit one
`RuntimeWarning` for each point whose original time was a number
(`isinstance(original, (int, float))`) strictly beyond the duration.
Returns (sorted result, warnings in original point order). -/
def Breakpoint.to_absolute_times (bp : Breakpoint) (duration : ℚ) :
    List (ℚ × ℚ) × List BPWarning :=
  let result := bp.points.map (fun p => (p.get_absolute_time duration, p.value))
  let original_order := bp.points.map (fun p => (p.get_absolute_time duration, p.time))
  let sorted := result.insertionSort bpLe
  let warns := original_order.filterMap (fun x =>
    match x.2 with
    | .num t => if x.1 > duration then some ⟨t, duration⟩ else none
    | _ => none)
  (sorted, warns)

/-- `Breakpoint.to_file_content`: the data written to a CDP breakpoint
file, abstracted to the resolved pair list (one `"time value"` line per
pair in the real file). -/
def Breakpoint.to_file_content (bp : Breakpoint) (duration : ℚ) : List (ℚ × ℚ) :=
  (bp.to_absolute_times duration).1

/-! ### core.py: `FileFormat`, `ChannelMode`, `AudioFile`, `CDPOperation` -/

/-- Supported file formats. -/
inductive FileFormat
  | wav
  | ana
deriving DecidableEq, Repr

/-- `FileFormat.value` (the extension string). -/
def FileFormat.value : FileFormat → String
  | .wav => "wav"
  | .ana => "ana"

/-- Channel configuration (`MONO = 1`, `STEREO = 2`). -/
inductive ChannelMode
  | mono
  | stereo
deriving DecidableEq, Repr

/-- `ChannelMode(n)`: succeeds exactly on 1 and 2, otherwise Python
raises `ValueError`. -/
def ChannelMode.ofNat? : ℕ → Option ChannelMode
  | 1 => some .mono
  | 2 => some .stereo
  | _ => none

/-- A file path, modelled structurally: directory part, stem, extension
(without the dot). -/
structure FPath where
  dir : String
  stem : String
  ext : String
deriving DecidableEq, Repr

/-- String form of a path, as `str(path)` renders it. -/
def FPath.str (p : FPath) : String :=
  (if p.dir = "" then "" else p.dir ++ "/") ++ p.stem ++ "." ++ p.ext

/-- An audio or analysis file with metadata; `channel_index` is 1 (left)
or 2 (right) for split stereo channels. -/
structure AudioFile where
  path : FPath
  format : FileFormat
  channels : ChannelMode
  channel_index : Option ℕ := none
deriving DecidableEq, Repr

def AudioFile.is_mono (f : AudioFile) : Bool :=
  match f.channels with
  | .mono => true
  | .stereo => false

def AudioFile.is_stereo (f : AudioFile) : Bool :=
  match f.channels with
  | .mono => false
  | .stereo => true

def AudioFile.is_wav (f : AudioFile) : Bool :=
  match f.format with
  | .wav => true
  | .ana => false

def AudioFile.is_ana (f : AudioFile) : Bool :=
  match f.format with
  | .wav => false
  | .ana => true

/-- One entry of `CDPOperation.params`: a scalar (already rendered with
`str`) or a `Breakpoint` curve. -/
inductive Param
  | scalar (s : String)
  | curve (b : Breakpoint)
deriving DecidableEq, Repr

/-- `is_automatable`: the parameter is a `Breakpoint`. -/
def Param.isCurve : Param → Bool
  | .curve _ => true
  | .scalar _ => false

/-- `str(p)` for a parameter. A raw `Breakpoint` is rendered by its
`__str__`; no claim depends on that text, so it is abstracted to a
constant token. -/
def Param.str : Param → String
  | .scalar s => s
  | .curve _ => "Breakpoint"

/-- What format and channel configuration an operation requires. -/
structure OperationRequirements where
  format : FileFormat
  channels : ChannelMode
deriving DecidableEq, Repr

/-- A CDP command/operation template. -/
structure CDPOperation where
  name : String
  program : String
  subcommand : Option String := none
  mode : Option String := none
  input_requirements : OperationRequirements := ⟨.ana, .mono⟩
  output_format : FileFormat := .ana
  params : List Param := []
  multi_input : Bool := false
deriving DecidableEq, Repr

/-- `CDPOperation.get_command_args`: `subcommand` is emitted when truthy
(`if self.subcommand:`), `mode` when not `None`, then the input path(s)
(`input_files[0]` raises `IndexError` on an empty list in the
single-input case, modelled as `none`), the output path, and the
parameters. -/
def CDPOperation.get_command_args (op : CDPOperation) (input_files : List AudioFile)
    (output_file : AudioFile) : Option (List String) :=
  let sub : List String :=
    match op.subcommand with
    | some s => if s = "" then [] else [s]
    | none => []
  let md : List String :=
    match op.mode with
    | some m => [m]
    | none => []
  let inp? : Option (List String) :=
    if op.multi_input then
      some (input_files.map (fun f => f.path.str))
    else
      match input_files with
      | [] => none
      | i :: _ => some [i.path.str]
  inp?.map (fun inp => sub ++ md ++ inp ++ [output_file.path.str] ++ op.params.map Param.str)

/-! ### executor.py: `PipelineExecutor` -/

/-- Errors raised by the embedded code (`ValueError`, `RuntimeError`,
`FileNotFoundError`, `IndexError`). -/
inductive Err
  | valueError (msg : String)
  | runtimeError (msg : String)
  | fileNotFound (msg : String)
  | indexError
deriving DecidableEq, Repr

/-- The external collaborators and executor configuration: the temp
directory, the `sfprops -c` channel oracle, the `sndinfo len` duration
oracle, and whether an external invocation succeeds. -/
structure Env where
  temp_dir : String
  chanOf : String → ℕ
  durOf : String → ℚ
  execOk : String → List String → Bool

/-- The observable state of one run: the `_counter` for temp file names,
the scratch files created in the temp directory, the breakpoint files
written there together with their content, the probe calls made
(`sfprops`/`sndinfo`, path), the external invocations made
(program, argument list), and the non-scratch filesystem. -/
structure St where
  counter : ℕ
  scratch : List FPath
  bpFiles : List (FPath × List (ℚ × ℚ))
  probes : List (String × String)
  invocations : List (String × List String)
  fs : List FPath
deriving DecidableEq, Repr

/-- The executor monad: reader over `Env`, state over `St`, exceptions
in `Err`. The state is kept on an exception, as Python side effects
survive a raised error. -/
instance {ε α : Type} [DecidableEq ε] [DecidableEq α] : DecidableEq (Except ε α)
  | .ok x, .ok y => if h : x = y then .isTrue (by rw [h]) else .isFalse (by simp [h])
  | .error e, .error e₂ => if h : e = e₂ then .isTrue (by rw [h]) else .isFalse (by simp [h])
  | .ok _, .error _ => .isFalse (by simp)
  | .error _, .ok _ => .isFalse (by simp)

def ExecM (α : Type) : Type := Env → St → Except Err α × St

def ExecM.pure {α : Type} (a : α) : ExecM α := fun _ s => (.ok a, s)

def ExecM.bind {α β : Type} (m : ExecM α) (f : α → ExecM β) : ExecM β := fun env s =>
  match m env s with
  | (.ok a, s₁) => f a env s₁
  | (.error e, s₁) => (.error e, s₁)

instance : Monad ExecM where
  pure := ExecM.pure
  bind := ExecM.bind

def throwE {α : Type} (e : Err) : ExecM α := fun _ s => (.error e, s)

def getEnv : ExecM Env := fun env s => (.ok env, s)

def getSt : ExecM St := fun _ s => (.ok s, s)

def modifySt (f : St → St) : ExecM Unit := fun _ s => (.ok (), f s)

/-- Record one `sh` invocation of an external program; raise
`RuntimeError` when the oracle says it fails. -/
def shCall (program : String) (args : List String) : ExecM Unit := fun env s =>
  let s₁ := { s with invocations := s.invocations ++ [(program, args)] }
  if env.execOk program args then (.ok (), s₁)
  else (.error (.runtimeError ("command failed: " ++ program)), s₁)

/-- Record a metadata probe (`sfprops` or `sndinfo`). -/
def logProbe (tool : String) (path : String) : ExecM Unit :=
  modifySt fun s => { s with probes := s.probes ++ [(tool, path)] }

/-- Record a file appearing in the temp directory. -/
def addScratch (p : FPath) : ExecM Unit :=
  modifySt fun s => { s with scratch := s.scratch ++ [p] }

/-- Zero-padded decimal rendering, as Python `f"{n:0wd}"`. -/
def padZeros (w : ℕ) (n : ℕ) : String :=
  let t := toString n
  if t.length < w then String.mk (List.replicate (w - t.length) '0') ++ t else t

/-- `PipelineExecutor._next_temp_file`: bump the counter and return
`temp_dir/base_name_XXXX.extension`. -/
def nextTempFile (base_name extension : String) : ExecM FPath := fun env s =>
  let c := s.counter + 1
  (.ok ⟨env.temp_dir, base_name ++ "_" ++ padZeros 4 c, extension⟩, { s with counter := c })

/-- `PipelineExecutor.get_file_info`: format from the extension
(`ValueError` on an unknown suffix); for a WAV file the channel count
is queried via `sfprops -c` (recorded as a probe) and a count other
than 1 or 2 makes `ChannelMode(channel_count)` raise, surfaced as
`RuntimeError`; a `.ana` file is assumed mono without any query. -/
def get_file_info (path : FPath) : ExecM (FileFormat × ChannelMode) := fun env s =>
  if path.ext = "ana" then (.ok (.ana, .mono), s)
  else if path.ext = "wav" then
    let s₁ := { s with probes := s.probes ++ [("sfprops", path.str)] }
    match ChannelMode.ofNat? (env.chanOf path.str) with
    | some channels => (.ok (.wav, channels), s₁)
    | none => (.error (.runtimeError ("Failed to get channel info for " ++ path.str)), s₁)
  else (.error (.valueError ("Unknown file format: ." ++ path.ext)), s)

/-- `PipelineExecutor.get_duration`: one `sndinfo len` probe; the
oracle returns the parsed `DURATION:` value. -/
def get_duration (audio_file : AudioFile) : ExecM ℚ := do
  logProbe "sndinfo" audio_file.path.str
  let env ← getEnv
  pure (env.durOf audio_file.path.str)

/-- `PipelineExecutor.write_breakpoint_file`: allocate a `.txt` temp
file and write the resolved breakpoint data to it. -/
def write_breakpoint_file (breakpoint : Breakpoint) (duration : ℚ) (base_name : String) :
    ExecM FPath := do
  let filepath ← nextTempFile base_name "txt"
  modifySt fun s =>
    { s with
      scratch := s.scratch ++ [filepath]
      bpFiles := s.bpFiles ++ [(filepath, breakpoint.to_file_content duration)] }
  pure filepath

/-- The path of one split channel file:
`name.replace(".wav", "_c<i>.wav")` for a name ending in `.wav`. -/
def chanPath (p : FPath) (i : ℕ) : FPath :=
  { p with stem := p.stem ++ "_c" ++ toString i }

/-- The two channel descriptors `split_stereo` constructs for a source
at `p` copied into `td`: WAV, mono, `channel_index` 1 and 2. -/
def splitChans (td : String) (p : FPath) : List AudioFile :=
  [ ⟨chanPath ⟨td, p.stem, p.ext⟩ 1, .wav, .mono, some 1⟩,
    ⟨chanPath ⟨td, p.stem, p.ext⟩ 2, .wav, .mono, some 2⟩ ]

/-- `PipelineExecutor.split_stereo`: copy the stereo file into the temp
directory, run `housekeep chans 2` on it, and return the two mono
channel descriptors. -/
def split_stereo (audio_file : AudioFile) : ExecM (List AudioFile) := do
  if ¬ audio_file.is_stereo then pure [audio_file]
  else do
    let env ← getEnv
    let temp_input : FPath := ⟨env.temp_dir, audio_file.path.stem, audio_file.path.ext⟩
    addScratch temp_input
    shCall "housekeep" ["chans", "2", temp_input.str]
    addScratch (chanPath temp_input 1)
    addScratch (chanPath temp_input 2)
    pure (splitChans env.temp_dir audio_file.path)

/-- `PipelineExecutor.merge_stereo`: both inputs must be mono WAV;
`submix interleave` writes the stereo file at `output_path`. -/
def merge_stereo (left right : AudioFile) (output_path : FPath) : ExecM AudioFile := do
  if ¬ (left.is_mono ∧ right.is_mono) then
    throwE (.valueError "Both inputs must be mono files")
  else if ¬ (left.is_wav ∧ right.is_wav) then
    throwE (.valueError "Both inputs must be WAV files")
  else do
    shCall "submix" ["interleave", left.path.str, right.path.str, output_path.str]
    modifySt fun s => { s with fs := s.fs ++ [output_path] }
    pure ⟨output_path, .wav, .stereo, none⟩

/-- `PipelineExecutor.convert_to_ana`: no-op unless the file is WAV;
otherwise `pvoc anal 1` into a fresh `.ana` temp file, preserving
channels and channel index. -/
def convert_to_ana (audio_file : AudioFile) : ExecM AudioFile := do
  if ¬ audio_file.is_wav then pure audio_file
  else do
    let output_path ← nextTempFile audio_file.path.stem "ana"
    shCall "pvoc" ["anal", "1", audio_file.path.str, output_path.str]
    addScratch output_path
    pure ⟨output_path, .ana, audio_file.channels, audio_file.channel_index⟩

/-- `PipelineExecutor.convert_to_wav`: no-op unless the file is `.ana`;
otherwise `pvoc synth` into a fresh `.wav` temp file, preserving
channels and channel index. -/
def convert_to_wav (audio_file : AudioFile) : ExecM AudioFile := do
  if ¬ audio_file.is_ana then pure audio_file
  else do
    let output_path ← nextTempFile audio_file.path.stem "wav"
    shCall "pvoc" ["synth", audio_file.path.str, output_path.str]
    addScratch output_path
    pure ⟨output_path, .wav, audio_file.channels, audio_file.channel_index⟩

/-- First loop of `prepare_inputs` (channel handling): split stereo
inputs when mono is required, fail when stereo is required from a mono
input, pass everything else through. -/
def prepareChannels (required_channels : ChannelMode) :
    List AudioFile → ExecM (List AudioFile)
  | [] => pure []
  | audio_file :: rest => do
    if required_channels = ChannelMode.mono ∧ audio_file.is_stereo then do
      let mono_files ← split_stereo audio_file
      let more ← prepareChannels required_channels rest
      pure (mono_files ++ more)
    else if required_channels = ChannelMode.stereo ∧ audio_file.is_mono then
      throwE (.valueError ("Cannot convert mono file " ++ audio_file.path.str ++ " to stereo"))
    else do
      let more ← prepareChannels required_channels rest
      pure (audio_file :: more)

/-- One step of the second loop of `prepare_inputs` (format handling). -/
def convertOne (required_format : FileFormat) (audio_file : AudioFile) : ExecM AudioFile :=
  if required_format = FileFormat.ana ∧ audio_file.is_wav then convert_to_ana audio_file
  else if required_format = FileFormat.wav ∧ audio_file.is_ana then convert_to_wav audio_file
  else pure audio_file

/-- Second loop of `prepare_inputs` (format handling). -/
def convertFormats (required_format : FileFormat) :
    List AudioFile → ExecM (List AudioFile)
  | [] => pure []
  | audio_file :: rest => do
    let c ← convertOne required_format audio_file
    let more ← convertFormats required_format rest
    pure (c :: more)

/-- `PipelineExecutor.prepare_inputs`: the channel loop runs first over
all inputs, then the format loop over its result. -/
def prepare_inputs (input_files : List AudioFile) (required_format : FileFormat)
    (required_channels : ChannelMode) : ExecM (List AudioFile) := do
  let prepared ← prepareChannels required_channels input_files
  convertFormats required_format prepared

/-- Index helper for `processParams` (Python `enumerate`). -/
def processParams (opName : String) (duration : ℚ) :
    ℕ → List Param → ExecM (List Param)
  | _, [] => pure []
  | i, p :: rest => do
    let p₁ ←
      match p with
      | .curve b => do
        let bp_file ← write_breakpoint_file b duration (opName ++ "_param" ++ toString i)
        pure (Param.scalar bp_file.str)
      | .scalar v => pure (Param.scalar v)
    let more ← processParams opName duration (i + 1) rest
    pure (p₁ :: more)

/-- `PipelineExecutor._process_breakpoints`: identity when no parameter
is a `Breakpoint`; otherwise query the duration of `input_files[0]`
(`IndexError` on an empty list), write one breakpoint file per curve
parameter, and return a copy of the operation with those parameters
replaced by the file paths. -/
def process_breakpoints (operation : CDPOperation) (input_files : List AudioFile) :
    ExecM CDPOperation := do
  if ¬ operation.params.any Param.isCurve then pure operation
  else
    match input_files with
    | [] => throwE .indexError
    | f₀ :: _ => do
      let duration ← get_duration f₀
      let processed ← processParams operation.name duration 0 operation.params
      pure { operation with params := processed }

/-- `PipelineExecutor._execute_cdp_command`. -/
def execute_cdp_command (program : String) (args : List String) : ExecM Unit :=
  shCall program args

/-- The channel keys of a descriptor list in Python dict insertion
order (first appearance). -/
def channelKeys (files : List AudioFile) : List (Option ℕ) :=
  files.foldl (fun ks f => if f.channel_index ∈ ks then ks else ks ++ [f.channel_index]) []

/-- `channels: Dict[Optional[int], List[AudioFile]]` grouping of
`execute_operation`: keys in insertion order, each with every
descriptor carrying that `channel_index`, in order. -/
def groupByTag (files : List AudioFile) : List (Option ℕ × List AudioFile) :=
  (channelKeys files).map (fun k => (k, files.filter (fun f => decide (f.channel_index = k))))

/-- The output-name suffix `f"_c{channel_idx}" if channel_idx else ""`:
empty for the untagged (`None`) key and for the falsy index 0. -/
def tagSuffix : Option ℕ → String
  | some n => if n ≠ 0 then "_c" ++ toString n else ""
  | none => ""

/-- The per-channel-group loop body of `execute_operation` (mono case):
allocate the output file (suffix `_c<i>` when the key is truthy),
process breakpoint parameters against this group's files, build the
command (`IndexError` when the group would be empty for a single-input
operation) and run it. -/
def execGroups (operation : CDPOperation) (output_base_name : String) :
    List (Option ℕ × List AudioFile) → ExecM (List AudioFile)
  | [] => pure []
  | (channel_idx, channel_files) :: rest => do
    let sfx := tagSuffix channel_idx
    let output_path ← nextTempFile (output_base_name ++ sfx) operation.output_format.value
    let output_file : AudioFile := ⟨output_path, operation.output_format, .mono, channel_idx⟩
    let processed ← process_breakpoints operation channel_files
    match processed.get_command_args channel_files output_file with
    | none => throwE .indexError
    | some cmd_args => do
      execute_cdp_command processed.program cmd_args
      addScratch output_path
      let more ← execGroups operation output_base_name rest
      pure (output_file :: more)

/-- `PipelineExecutor.execute_operation`: prepare the inputs, then for
a mono-requiring operation group them by `channel_index` and invoke
once per group; otherwise invoke once on all prepared inputs. -/
def execute_operation (operation : CDPOperation) (input_files : List AudioFile)
    (output_base_name : String) : ExecM (List AudioFile) := do
  let prepared ← prepare_inputs input_files operation.input_requirements.format
    operation.input_requirements.channels
  if operation.input_requirements.channels = ChannelMode.mono then
    execGroups operation output_base_name (groupByTag prepared)
  else do
    let output_path ← nextTempFile output_base_name operation.output_format.value
    let output_file : AudioFile :=
      ⟨output_path, operation.output_format, operation.input_requirements.channels, none⟩
    let processed ← process_breakpoints operation prepared
    match processed.get_command_args prepared output_file with
    | none => throwE .indexError
    | some cmd_args => do
      execute_cdp_command processed.program cmd_args
      addScratch output_path
      pure [output_file]

/-- `PipelineExecutor.cleanup`, as invoked by `__exit__`: remove the
temp directory and everything in it unless `keep_temp` was set. -/
def cleanupSt (keep_temp : Bool) (s : St) : St :=
  if keep_temp then s else { s with scratch := [], bpFiles := [] }

/-! ### pipeline.py: `Pipeline.run` -/

/-- The run options of `Pipeline.run` (`verbose` only prints and is
omitted; `temp_dir` lives in `Env`). -/
structure RunOpts where
  keep_temp : Bool := false
  output_channels : Option ChannelMode := none
  output_format : Option FileFormat := none
  overwrite : Bool := false

/-- The `if not input_path.exists(): raise FileNotFoundError` guard of
`Pipeline.run`. -/
def requireExists (p : FPath) : ExecM Unit := fun _ s =>
  if p ∈ s.fs then (.ok (), s)
  else (.error (.fileNotFound ("Input file not found: " ++ p.str)), s)

/-- The input-loading loop of `Pipeline.run`: existence check then
`get_file_info` for each input path in order. -/
def probeFiles : List FPath → ExecM (List AudioFile)
  | [] => pure []
  | p :: rest => do
    requireExists p
    let info ← get_file_info p
    let more ← probeFiles rest
    pure (⟨p, info.1, info.2, none⟩ :: more)

/-- The operation loop of `Pipeline.run`: thread the descriptor set
through the operations, naming each step `opNN_<name>`. -/
def runOps (i : ℕ) : List CDPOperation → List AudioFile → ExecM (List AudioFile)
  | [], current => pure current
  | operation :: rest, current => do
    let next ← execute_operation operation current
      ("op" ++ padZeros 2 i ++ "_" ++ operation.name)
    runOps (i + 1) rest next

/-- Final format conversion over the whole descriptor set. -/
def convertAll (output_format : FileFormat) :
    List AudioFile → ExecM (List AudioFile)
  | [] => pure []
  | f :: rest => do
    let c ←
      match output_format with
      | .wav => convert_to_wav f
      | .ana => convert_to_ana f
    let more ← convertAll output_format rest
    pure (c :: more)

/-- `shutil.copy(result.path, output_path)` followed by repointing the
descriptor at the output path. -/
def copyToOutput (f : AudioFile) (output_path : FPath) : ExecM AudioFile := do
  modifySt fun s => { s with fs := s.fs ++ [output_path] }
  pure { f with path := output_path }

/-- The WAV guard of the final stage:
`if not f.is_wav: f = executor.convert_to_wav(f)`. -/
def ensureWav (f : AudioFile) : ExecM AudioFile :=
  if ¬ f.is_wav then convert_to_wav f else pure f

/-- The two-descriptor merge path of the final stage: convert either
side to WAV when needed, then interleave into the output path. -/
def mergeBranch (left₀ right₀ : AudioFile) (output_path : FPath) : ExecM AudioFile := do
  let left ← ensureWav left₀
  let right ← ensureWav right₀
  merge_stereo left right output_path

/-- The output-shape block at the end of `Pipeline.run`
(`FINALIZE_CHANNELS`): merge a pair (preferring descriptors tagged 1
and 2 for left and right, defaulting positionally), copy a lone
already-stereo descriptor, or copy the single descriptor in the mono
case; every other multiplicity raises `ValueError`. -/
def finalizeChannels (output_channels : Option ChannelMode) (input_is_stereo : Bool)
    (output_path : FPath) (current : List AudioFile) : ExecM AudioFile :=
  if output_channels = some ChannelMode.stereo ∨
      (output_channels = none ∧ input_is_stereo) then
    match current with
    | [a, b] =>
      mergeBranch (([a, b].find? (fun f => decide (f.channel_index = some 1))).getD a)
        (([a, b].find? (fun f => decide (f.channel_index = some 2))).getD b) output_path
    | [single] =>
      if single.is_stereo then copyToOutput single output_path
      else throwE (.valueError "Cannot create stereo output from 1 mono file(s)")
    | _ => throwE (.valueError "Cannot create stereo output")
  else
    match current with
    | [single] => copyToOutput single output_path
    | _ => throwE (.valueError "Pipeline produced multiple outputs")

/-- The body of `Pipeline.run` inside the `with PipelineExecutor(...)`
block, after the overwrite step: probe, run the operations, convert to
the requested output format, then resolve the output channel shape. -/
def runBody (operations : List CDPOperation) (input_files : List FPath)
    (output_path : FPath) (opts : RunOpts) : ExecM AudioFile := do
  let output_format := opts.output_format.getD FileFormat.wav
  let audio_files ← probeFiles input_files
  let input_is_stereo := audio_files.any AudioFile.is_stereo
  let current₀ ← runOps 0 operations audio_files
  let current ← convertAll output_format current₀
  finalizeChannels opts.output_channels input_is_stereo output_path current

/-- Deleting the file at `output_path` (`Path.unlink`): afterwards no
file exists there. -/
def unlinkFs (output_path : FPath) (s : St) : St :=
  { s with fs := s.fs.filter (fun p => decide (¬ p = output_path)) }

/-- `Pipeline.run`: handle `overwrite` before the executor exists, run
the body, and release the scratch area on every exit path (the `with`
statement runs `__exit__` on success and on exception alike). -/
def Pipeline.run (operations : List CDPOperation) (input_files : List FPath)
    (output_path : FPath) (opts : RunOpts) :
    Env → St → Except Err AudioFile × St := fun env s =>
  let s₀ := if opts.overwrite ∧ output_path ∈ s.fs then unlinkFs output_path s else s
  let r := runBody operations input_files output_path opts env s₀
  (r.1, cleanupSt opts.keep_temp r.2)

/-! ### Reasoning infrastructure for the executor monad -/

theorem run_bind {α β : Type} (m : ExecM α) (f : α → ExecM β) :
    m >>= f = ExecM.bind m f := rfl

theorem run_pure {α : Type} (a : α) (env : Env) (s : St) :
    (Pure.pure a : ExecM α) env s = (.ok a, s) := rfl

theorem bind_of_ok {α β : Type} {m : ExecM α} {f : α → ExecM β} {env : Env} {s : St}
    {a : α} {s₁ : St} (h : m env s = (.ok a, s₁)) :
    (m >>= f) env s = f a env s₁ := by
  show ExecM.bind m f env s = _
  simp [ExecM.bind, h]

theorem bind_of_error {α β : Type} {m : ExecM α} {f : α → ExecM β} {env : Env} {s : St}
    {e : Err} {s₁ : St} (h : m env s = (.error e, s₁)) :
    (m >>= f) env s = (.error e, s₁) := by
  show ExecM.bind m f env s = _
  simp [ExecM.bind, h]

theorem bind_pure_l {α β : Type} (a : α) (f : α → ExecM β) (env : Env) (s : St) :
    ((Pure.pure a : ExecM α) >>= f) env s = f a env s := rfl

/-- A computation preserves the component of the state read off by `g`. -/
def Preserves {γ : Type} (g : St → γ) {α : Type} (m : ExecM α) : Prop :=
  ∀ env s, g ((m env s).2) = g s

theorem Preserves.bind {γ α β : Type} {g : St → γ} {m : ExecM α} {f : α → ExecM β}
    (hm : Preserves g m) (hf : ∀ a, Preserves g (f a)) : Preserves g (m >>= f) := by
  intro env s
  show g ((ExecM.bind m f env s).2) = g s
  unfold ExecM.bind
  rcases h : m env s with ⟨r, s₁⟩
  have hs₁ : g s₁ = g s := by
    have := hm env s
    rwa [h] at this
  cases r with
  | ok a => simpa [hs₁] using (hf a env s₁)
  | error e => simpa using hs₁

theorem Preserves.pure {γ α : Type} (g : St → γ) (a : α) :
    Preserves g (Pure.pure a : ExecM α) := by
  intro env s; rfl

theorem Preserves.throwE {γ α : Type} (g : St → γ) (e : Err) :
    Preserves g (throwE e : ExecM α) := by
  intro env s; rfl

theorem Preserves.getEnv {γ : Type} (g : St → γ) : Preserves g getEnv := by
  intro env s; rfl

theorem Preserves.getSt {γ : Type} (g : St → γ) : Preserves g getSt := by
  intro env s; rfl

/-! ### Helper lemmas: breakpoint resolution -/

/-- The diagnostic `to_absolute_times` attaches to one point: only a
point whose original time was a number strictly beyond the duration
produces one. -/
def warnOf (duration : ℚ) (p : BreakpointValue) : Option BPWarning :=
  match p.time with
  | .num t => if t > duration then some ⟨t, duration⟩ else none
  | _ => none

theorem to_absolute_times_fst (bp : Breakpoint) (duration : ℚ) :
    (bp.to_absolute_times duration).1 =
      (bp.points.map (fun p => (p.get_absolute_time duration, p.value))).insertionSort bpLe :=
  rfl

theorem to_absolute_times_perm (bp : Breakpoint) (duration : ℚ) :
    List.Perm (bp.to_absolute_times duration).1
      (bp.points.map (fun p => (p.get_absolute_time duration, p.value))) := by
  rw [to_absolute_times_fst]
  exact List.perm_insertionSort bpLe _

theorem to_absolute_times_snd (bp : Breakpoint) (duration : ℚ) :
    (bp.to_absolute_times duration).2 = bp.points.filterMap (warnOf duration) := by
  show (bp.points.map (fun p => (p.get_absolute_time duration, p.time))).filterMap _ = _
  rw [List.filterMap_map]
  apply List.filterMap_congr
  intro p _
  rcases p with ⟨t, v⟩
  cases t with
  | num t => rfl
  | strPct q => rfl
  | strNum t => rfl

/-- C3: for every curve and duration, `to_absolute_times` maps each
percentage point `P` to absolute time `duration × P / 100` and each
absolute time-spec (number or plain numeric string) to itself, keeps
every value paired with its point, and returns the points sorted
ascending by absolute time regardless of insertion order. -/
theorem to_absolute_times_resolves_and_sorts :
    ∀ (bp : Breakpoint) (duration : ℚ),
      List.Sorted bpLe (bp.to_absolute_times duration).1
      ∧ List.Perm (bp.to_absolute_times duration).1
          (bp.points.map (fun p => (p.get_absolute_time duration, p.value)))
      ∧ (∀ pct v, BreakpointValue.get_absolute_time ⟨.strPct pct, v⟩ duration
            = duration * pct / 100)
      ∧ (∀ t v, BreakpointValue.get_absolute_time ⟨.num t, v⟩ duration = t)
      ∧ (∀ t v, BreakpointValue.get_absolute_time ⟨.strNum t, v⟩ duration = t) := by
  intro bp duration
  refine ⟨?_, to_absolute_times_perm bp duration, ?_, ?_, ?_⟩
  · rw [to_absolute_times_fst]
    exact List.sorted_insertionSort bpLe _
  · intro pct v
    show pct / 100 * duration = duration * pct / 100
    ring
  · intro t v; rfl
  · intro t v; rfl

/-- C4: the diagnostics of `to_absolute_times` are exactly one per
point whose time-spec is a number strictly beyond the duration, each
naming that time and the duration; every point (offending ones
included) is retained in the resolved output; a curve consisting only
of percentage points produces no diagnostic. -/
theorem to_absolute_times_warning_discipline :
    ∀ (bp : Breakpoint) (duration : ℚ),
      (bp.to_absolute_times duration).2 = bp.points.filterMap (warnOf duration)
      ∧ List.Perm (bp.to_absolute_times duration).1
          (bp.points.map (fun p => (p.get_absolute_time duration, p.value)))
      ∧ ((∀ p ∈ bp.points, p.time.is_percentage = true) →
          (bp.to_absolute_times duration).2 = []) := by
  intro bp duration
  refine ⟨to_absolute_times_snd bp duration, to_absolute_times_perm bp duration, ?_⟩
  intro hall
  rw [to_absolute_times_snd]
  rw [List.filterMap_eq_nil_iff]
  intro p hp
  have := hall p hp
  rcases p with ⟨t, v⟩
  cases t with
  | num t => simp [BPTime.is_percentage] at this
  | strPct q => rfl
  | strNum t => simp [BPTime.is_percentage] at this

/-- Witness for C4 at a concrete percentage-only curve. -/
theorem to_absolute_times_warning_discipline_witness :
    (({ points := [⟨.strPct 0, 5⟩, ⟨.strPct 150, 10⟩] } : Breakpoint).to_absolute_times 2).2
      = [] :=
  (to_absolute_times_warning_discipline { points := [⟨.strPct 0, 5⟩, ⟨.strPct 150, 10⟩] }
    2).2.2 (by decide)

/-! ### C5: the command-argument grammar -/

/-- C5: for a spec whose `subcommand` is not the degenerate empty
string, the built argument list is exactly: the subcommand if present,
then the mode value if present, then every input path in order for a
multi-input spec and exactly the first input path otherwise, then the
output path, then the parameters in declared order. -/
theorem get_command_args_grammar :
    ∀ (op : CDPOperation) (i : AudioFile) (rest : List AudioFile) (out : AudioFile),
      op.subcommand ≠ some "" →
      op.get_command_args (i :: rest) out =
        some ((match op.subcommand with | some s => [s] | none => [])
          ++ (match op.mode with | some m => [m] | none => [])
          ++ (if op.multi_input then (i :: rest).map (fun f => f.path.str)
              else [i.path.str])
          ++ [out.path.str]
          ++ op.params.map Param.str) := by
  intro op i rest out hsub
  unfold CDPOperation.get_command_args
  rcases hs : op.subcommand with _ | s
  · cases op.multi_input <;> simp
  · have hne : ¬ s = "" := by
      intro h
      exact hsub (by rw [hs, h])
    cases op.multi_input <;> simp [hne]

/-- Witness for C5: Scenario D, the multi-input `combine interleave`
with three inputs and one trailing scalar. -/
theorem get_command_args_grammar_witness :
    CDPOperation.get_command_args
        { name := "combine_interleave_1", program := "combine",
          subcommand := some "interleave", params := [.scalar "1"], multi_input := true }
        [⟨⟨"", "a", "ana"⟩, .ana, .mono, none⟩,
         ⟨⟨"", "b", "ana"⟩, .ana, .mono, none⟩,
         ⟨⟨"", "c", "ana"⟩, .ana, .mono, none⟩]
        ⟨⟨"", "out", "ana"⟩, .ana, .mono, none⟩
      = some ["interleave", "a.ana", "b.ana", "c.ana", "out.ana", "1"] :=
  (get_command_args_grammar
    { name := "combine_interleave_1", program := "combine",
      subcommand := some "interleave", params := [.scalar "1"], multi_input := true }
    ⟨⟨"", "a", "ana"⟩, .ana, .mono, none⟩
    [⟨⟨"", "b", "ana"⟩, .ana, .mono, none⟩, ⟨⟨"", "c", "ana"⟩, .ana, .mono, none⟩]
    ⟨⟨"", "out", "ana"⟩, .ana, .mono, none⟩
    (by decide)).trans (by decide)

/-! ### Run equations for the executor primitives -/

theorem logProbe_run (tool path : String) (env : Env) (s : St) :
    logProbe tool path env s = (.ok (), { s with probes := s.probes ++ [(tool, path)] }) :=
  rfl

theorem nextTempFile_run (b e : String) (env : Env) (s : St) :
    nextTempFile b e env s =
      (.ok ⟨env.temp_dir, b ++ "_" ++ padZeros 4 (s.counter + 1), e⟩,
        { s with counter := s.counter + 1 }) :=
  rfl

theorem get_duration_run (f : AudioFile) (env : Env) (s : St) :
    get_duration f env s =
      (.ok (env.durOf f.path.str), { s with probes := s.probes ++ [("sndinfo", f.path.str)] }) :=
  rfl

theorem write_breakpoint_file_run (b : Breakpoint) (d : ℚ) (nm : String) (env : Env) (s : St) :
    write_breakpoint_file b d nm env s =
      (.ok ⟨env.temp_dir, nm ++ "_" ++ padZeros 4 (s.counter + 1), "txt"⟩,
        { s with
          counter := s.counter + 1
          scratch := s.scratch ++ [⟨env.temp_dir, nm ++ "_" ++ padZeros 4 (s.counter + 1), "txt"⟩]
          bpFiles := s.bpFiles ++
            [(⟨env.temp_dir, nm ++ "_" ++ padZeros 4 (s.counter + 1), "txt"⟩,
              b.to_file_content d)] }) :=
  rfl

/-! ### C6: curve materialization -/

/-- Relation between a template's parameter list, the materialized
parameter list, and the breakpoint files written for it: scalars pass
through unchanged, each curve is replaced by the path of a written file
holding its sequence resolved at duration `d`, in declared order. -/
inductive ParamsRel (d : ℚ) : List Param → List Param → List (FPath × List (ℚ × ℚ)) → Prop
  | nil : ParamsRel d [] [] []
  | scalar (v : String) {ps qs ws : _} (h : ParamsRel d ps qs ws) :
      ParamsRel d (.scalar v :: ps) (.scalar v :: qs) ws
  | curve (b : Breakpoint) (p : FPath) {ps qs ws : _} (h : ParamsRel d ps qs ws) :
      ParamsRel d (.curve b :: ps) (.scalar p.str :: qs) ((p, (b.to_absolute_times d).1) :: ws)

theorem write_breakpoint_file_spec (b : Breakpoint) (d : ℚ) (nm : String) (env : Env)
    (s : St) :
    ∃ fp, write_breakpoint_file b d nm env s =
      (.ok fp,
        { s with
          counter := s.counter + 1
          scratch := s.scratch ++ [fp]
          bpFiles := s.bpFiles ++ [(fp, b.to_file_content d)] }) :=
  ⟨_, rfl⟩

theorem processParams_spec :
    ∀ (ps : List Param) (nm : String) (d : ℚ) (i : ℕ) (env : Env) (s : St),
      ∃ qs s₁ ws,
        processParams nm d i ps env s = (.ok qs, s₁)
        ∧ s₁.bpFiles = s.bpFiles ++ ws
        ∧ s₁.probes = s.probes
        ∧ s₁.invocations = s.invocations
        ∧ s₁.fs = s.fs
        ∧ ParamsRel d ps qs ws := by
  intro ps
  induction ps with
  | nil =>
    intro nm d i env s
    exact ⟨[], s, [], rfl, by simp, rfl, rfl, rfl, ParamsRel.nil⟩
  | cons p rest ih =>
    intro nm d i env s
    cases p with
    | scalar v =>
      obtain ⟨qs, s₁, ws, hrun, hbp, hpr, hinv, hfs, hrel⟩ := ih nm d (i + 1) env s
      refine ⟨Param.scalar v :: qs, s₁, ws, ?_, hbp, hpr, hinv, hfs, ParamsRel.scalar v hrel⟩
      simp only [processParams]
      rw [bind_of_ok (show (Pure.pure (Param.scalar v) : ExecM Param) env s
            = (.ok (Param.scalar v), s) from rfl)]
      rw [bind_of_ok hrun]
      rfl
    | curve b =>
      obtain ⟨fp, hw⟩ := write_breakpoint_file_spec b d (nm ++ "_param" ++ toString i) env s
      obtain ⟨qs, s₁, ws, hrun, hbp, hpr, hinv, hfs, hrel⟩ := ih nm d (i + 1) env
        { s with
          counter := s.counter + 1
          scratch := s.scratch ++ [fp]
          bpFiles := s.bpFiles ++ [(fp, b.to_file_content d)] }
      refine ⟨Param.scalar fp.str :: qs, s₁, (fp, (b.to_absolute_times d).1) :: ws, ?_, ?_, ?_,
        hinv, hfs, ParamsRel.curve b fp hrel⟩
      · simp only [processParams]
        rw [bind_of_ok hw]
        rw [bind_pure_l]
        rw [bind_of_ok hrun]
        rfl
      · rw [hbp]
        simp [Breakpoint.to_file_content]
      · exact hpr

/-- Identity case of `_process_breakpoints`: no curve parameter. -/
theorem process_breakpoints_nocurve {op : CDPOperation} (env : Env) (s : St)
    (files : List AudioFile) (h : op.params.any Param.isCurve = false) :
    process_breakpoints op files env s = (.ok op, s) := by
  unfold process_breakpoints
  rw [if_pos (by simp [h])]
  rfl

/-- Empty-input case of `_process_breakpoints` with a curve parameter:
`input_files[0]` raises `IndexError` with the state untouched. -/
theorem process_breakpoints_nil {op : CDPOperation} (env : Env) (s : St)
    (h : op.params.any Param.isCurve = true) :
    process_breakpoints op [] env s = (.error .indexError, s) := by
  unfold process_breakpoints
  rw [if_neg (by simp [h])]
  rfl

/-- Main case of `_process_breakpoints`: the full materialization
contract, with bookkeeping facts about the state. -/
theorem process_breakpoints_spec {op : CDPOperation} (env : Env) (s : St) (f : AudioFile)
    (rest : List AudioFile) (h : op.params.any Param.isCurve = true) :
    ∃ op₁ s₁ ws,
      process_breakpoints op (f :: rest) env s = (.ok op₁, s₁)
      ∧ s₁.probes = s.probes ++ [("sndinfo", f.path.str)]
      ∧ s₁.bpFiles = s.bpFiles ++ ws
      ∧ s₁.invocations = s.invocations
      ∧ s₁.fs = s.fs
      ∧ op₁.name = op.name ∧ op₁.program = op.program
      ∧ op₁.subcommand = op.subcommand ∧ op₁.mode = op.mode
      ∧ op₁.input_requirements = op.input_requirements
      ∧ op₁.output_format = op.output_format ∧ op₁.multi_input = op.multi_input
      ∧ ParamsRel (env.durOf f.path.str) op.params op₁.params ws := by
  obtain ⟨qs, s₁, ws, hrun, hbp, hpr, hinv, hfs, hrel⟩ :=
    processParams_spec op.params op.name (env.durOf f.path.str) 0 env
      { s with probes := s.probes ++ [("sndinfo", f.path.str)] }
  refine ⟨{ op with params := qs }, s₁, ws, ?_, ?_, ?_, ?_, ?_, rfl, rfl, rfl, rfl, rfl, rfl,
    rfl, hrel⟩
  · unfold process_breakpoints
    rw [if_neg (by simp [h])]
    rw [show (match f :: rest with
          | [] => throwE Err.indexError
          | f₀ :: _ => do
            let duration ← get_duration f₀
            let processed ← processParams op.name duration 0 op.params
            Pure.pure { op with params := processed } : ExecM CDPOperation)
        = (do
            let duration ← get_duration f
            let processed ← processParams op.name duration 0 op.params
            Pure.pure { op with params := processed } : ExecM CDPOperation) from rfl]
    rw [bind_of_ok (get_duration_run f env s)]
    rw [bind_of_ok hrun]
    rfl
  · exact hpr
  · exact hbp
  · exact hinv
  · exact hfs

/-- C6: materializing a spec with no curve parameter returns it (and
the state) unchanged; otherwise the duration of the first input
descriptor of this invocation is queried once, every curve parameter is
replaced by the path of a newly written scratch file holding the
sequence resolved at that duration, scalars pass through unchanged, and
the result is a derived spec equal to the template in every other
field (the template itself, being a value, is not mutated). -/
theorem process_breakpoints_materialization :
    (∀ (env : Env) (s : St) (op : CDPOperation) (files : List AudioFile),
      op.params.any Param.isCurve = false →
      process_breakpoints op files env s = (.ok op, s))
    ∧ (∀ (env : Env) (s : St) (op : CDPOperation) (f : AudioFile) (rest : List AudioFile),
      op.params.any Param.isCurve = true →
      ∃ op₁ s₁ ws,
        process_breakpoints op (f :: rest) env s = (.ok op₁, s₁)
        ∧ s₁.probes = s.probes ++ [("sndinfo", f.path.str)]
        ∧ s₁.bpFiles = s.bpFiles ++ ws
        ∧ op₁.name = op.name ∧ op₁.program = op.program
        ∧ op₁.subcommand = op.subcommand ∧ op₁.mode = op.mode
        ∧ op₁.input_requirements = op.input_requirements
        ∧ op₁.output_format = op.output_format ∧ op₁.multi_input = op.multi_input
        ∧ ParamsRel (env.durOf f.path.str) op.params op₁.params ws) := by
  constructor
  · intro env s op files h
    exact process_breakpoints_nocurve env s files h
  · intro env s op f rest h
    obtain ⟨op₁, s₁, ws, hrun, hpr, hbp, _, _, hrest⟩ := process_breakpoints_spec env s f rest h
    exact ⟨op₁, s₁, ws, hrun, hpr, hbp, hrest⟩

/-- Witness for C6: a curve-free spec passes through unchanged, and a
spec with one curve parameter is materialized against the first
input's duration. -/
theorem process_breakpoints_materialization_witness :
    (process_breakpoints
        { name := "blur", program := "blur", params := [.scalar "2.0"] }
        [⟨⟨"", "in", "ana"⟩, .ana, .mono, none⟩]
        { temp_dir := "tmp", chanOf := fun _ => 1, durOf := fun _ => 2,
          execOk := fun _ _ => true }
        ⟨0, [], [], [], [], []⟩
      = (.ok { name := "blur", program := "blur", params := [.scalar "2.0"] },
          ⟨0, [], [], [], [], []⟩))
    ∧ ∃ op₁ s₁ ws,
        process_breakpoints
            { name := "blur", program := "blur",
              params := [.curve { points := [⟨.strPct 0, 1⟩] }] }
            [⟨⟨"", "in", "ana"⟩, .ana, .mono, none⟩]
            { temp_dir := "tmp", chanOf := fun _ => 1, durOf := fun _ => 2,
              execOk := fun _ _ => true }
            ⟨0, [], [], [], [], []⟩
          = (.ok op₁, s₁)
        ∧ s₁.probes = [] ++ [("sndinfo", (FPath.mk "" "in" "ana").str)]
        ∧ s₁.bpFiles = [] ++ ws
        ∧ op₁.name = "blur" ∧ op₁.program = "blur"
        ∧ op₁.subcommand = none ∧ op₁.mode = none
        ∧ op₁.input_requirements = ⟨.ana, .mono⟩
        ∧ op₁.output_format = .ana ∧ op₁.multi_input = false
        ∧ ParamsRel 2 [.curve { points := [⟨.strPct 0, 1⟩] }] op₁.params ws := by
  constructor
  · exact process_breakpoints_materialization.1
      { temp_dir := "tmp", chanOf := fun _ => 1, durOf := fun _ => 2,
        execOk := fun _ _ => true }
      ⟨0, [], [], [], [], []⟩
      { name := "blur", program := "blur", params := [.scalar "2.0"] }
      [⟨⟨"", "in", "ana"⟩, .ana, .mono, none⟩] (by decide)
  · exact process_breakpoints_materialization.2
      { temp_dir := "tmp", chanOf := fun _ => 1, durOf := fun _ => 2,
        execOk := fun _ _ => true }
      ⟨0, [], [], [], [], []⟩
      { name := "blur", program := "blur",
        params := [.curve { points := [⟨.strPct 0, 1⟩] }] }
      ⟨⟨"", "in", "ana"⟩, .ana, .mono, none⟩ [] (by decide)

/-! ### C1: negotiation order in `prepare_inputs` -/

theorem getEnv_run (env : Env) (s : St) : getEnv env s = (.ok env, s) := rfl

theorem getSt_run (env : Env) (s : St) : getSt env s = (.ok s, s) := rfl

theorem addScratch_run (p : FPath) (env : Env) (s : St) :
    addScratch p env s = (.ok (), { s with scratch := s.scratch ++ [p] }) := rfl

theorem throwE_run {α : Type} (e : Err) (env : Env) (s : St) :
    (throwE e : ExecM α) env s = (.error e, s) := rfl

theorem shCall_ok {p : String} {args : List String} {env : Env}
    (h : env.execOk p args = true) (s : St) :
    shCall p args env s = (.ok (), { s with invocations := s.invocations ++ [(p, args)] }) := by
  unfold shCall
  rw [if_pos h]

theorem shCall_err {p : String} {args : List String} {env : Env}
    (h : env.execOk p args = false) (s : St) :
    shCall p args env s =
      (.error (.runtimeError ("command failed: " ++ p)),
        { s with invocations := s.invocations ++ [(p, args)] }) := by
  unfold shCall
  rw [if_neg (by simp [h])]

theorem split_stereo_not_stereo {f : AudioFile} (h : f.is_stereo = false) (env : Env)
    (s : St) : split_stereo f env s = (.ok [f], s) := by
  unfold split_stereo
  rw [if_pos (by simp [h])]
  rfl

/-- The descriptor list a successful `split_stereo` returns. -/
theorem split_stereo_ok_val {f : AudioFile} {env : Env} {s : St} {v : List AudioFile}
    {s₁ : St} (h : split_stereo f env s = (.ok v, s₁)) :
    v = if f.is_stereo then splitChans env.temp_dir f.path else [f] := by
  cases hst : f.is_stereo with
  | false =>
    rw [split_stereo_not_stereo hst] at h
    simp only [Prod.mk.injEq, Except.ok.injEq] at h
    simp [hst, h.1.symm]
  | true =>
    unfold split_stereo at h
    rw [if_neg (by simp [hst])] at h
    rw [bind_of_ok (getEnv_run env s)] at h
    rw [bind_of_ok (addScratch_run _ env _)] at h
    cases hx : env.execOk "housekeep"
        ["chans", "2", (FPath.mk env.temp_dir f.path.stem f.path.ext).str] with
    | false =>
      rw [bind_of_error (shCall_err hx _)] at h
      simp at h
    | true =>
      rw [bind_of_ok (shCall_ok hx _)] at h
      rw [bind_of_ok (addScratch_run _ env _)] at h
      rw [bind_of_ok (addScratch_run _ env _)] at h
      rw [run_pure] at h
      simp only [Prod.mk.injEq, Except.ok.injEq] at h
      simp [hst, h.1.symm]

/-- The first (channel) loop of `prepare_inputs`, when mono is
required, can only succeed with the in-place split expansion of its
input list: each stereo descriptor replaced by its two tagged mono
channel descriptors, every other descriptor kept. -/
theorem prepareChannels_mono_ok :
    ∀ (inputs : List AudioFile) (env : Env) (s : St) (out : List AudioFile) (s₁ : St),
      prepareChannels ChannelMode.mono inputs env s = (.ok out, s₁) →
      out = inputs.flatMap
        (fun f => if f.is_stereo then splitChans env.temp_dir f.path else [f]) := by
  intro inputs
  induction inputs with
  | nil =>
    intro env s out s₁ h
    rw [show prepareChannels ChannelMode.mono [] = Pure.pure [] from rfl, run_pure] at h
    simp only [Prod.mk.injEq, Except.ok.injEq] at h
    simp [h.1.symm]
  | cons f rest ih =>
    intro env s out s₁ h
    simp only [prepareChannels] at h
    cases hst : f.is_stereo with
    | true =>
      rw [if_pos (by simp [hst])] at h
      rcases h₁ : split_stereo f env s with ⟨r₁, sA⟩
      cases r₁ with
      | error e =>
        rw [bind_of_error h₁] at h
        simp at h
      | ok v₁ =>
        rw [bind_of_ok h₁] at h
        rcases h₂ : prepareChannels ChannelMode.mono rest env sA with ⟨r₂, sB⟩
        cases r₂ with
        | error e =>
          rw [bind_of_error h₂] at h
          simp at h
        | ok more =>
          rw [bind_of_ok h₂, run_pure] at h
          simp only [Prod.mk.injEq, Except.ok.injEq] at h
          have hv₁ := split_stereo_ok_val h₁
          rw [if_pos (by simp [hst])] at hv₁
          rw [← h.1, hv₁, ih env sA more sB h₂]
          simp [hst]
    | false =>
      rw [if_neg (by simp [hst])] at h
      rw [if_neg (by simp)] at h
      rcases h₂ : prepareChannels ChannelMode.mono rest env s with ⟨r₂, sB⟩
      cases r₂ with
      | error e =>
        rw [bind_of_error h₂] at h
        simp at h
      | ok more =>
        rw [bind_of_ok h₂, run_pure] at h
        simp only [Prod.mk.injEq, Except.ok.injEq] at h
        rw [← h.1, ih env s more sB h₂]
        simp [hst]

/-- Format conversion is the identity (same descriptor, same state, no
invocation) on a descriptor already in the required representation. -/
theorem convertOne_matching {rf : FileFormat} {f : AudioFile} (h : f.format = rf)
    (env : Env) (s : St) : convertOne rf f env s = (.ok f, s) := by
  unfold convertOne
  cases rf with
  | ana =>
    rw [if_neg (by simp [AudioFile.is_wav, h])]
    rw [if_neg (by simp)]
    rfl
  | wav =>
    rw [if_neg (by simp)]
    rw [if_neg (by simp [AudioFile.is_ana, h])]
    rfl

/-- C1: when mono is required, a successful `prepare_inputs` factors as
the channel stage followed by the representation stage: the channel
stage first rewrites the whole input list, replacing each stereo
descriptor in place by exactly two mono descriptors tagged 1 (left) and
2 (right) and passing every other descriptor through, and only then
does the format stage run on that intermediate list; the per-descriptor
format conversion is a strict no-op for a descriptor already in the
required representation. -/
theorem prepare_inputs_splits_before_conversion :
    (∀ (env : Env) (s : St) (inputs : List AudioFile) (rf : FileFormat)
        (out : List AudioFile) (s₂ : St),
      prepare_inputs inputs rf ChannelMode.mono env s = (.ok out, s₂) →
      ∃ mid s₁,
        prepareChannels ChannelMode.mono inputs env s = (.ok mid, s₁)
        ∧ mid = inputs.flatMap
            (fun f => if f.is_stereo then splitChans env.temp_dir f.path else [f])
        ∧ convertFormats rf mid env s₁ = (.ok out, s₂))
    ∧ (∀ (td : String) (p : FPath),
        (splitChans td p).map (fun f => (f.format, f.channels, f.channel_index))
          = [(.wav, .mono, some 1), (.wav, .mono, some 2)])
    ∧ (∀ (rf : FileFormat) (f : AudioFile), f.format = rf →
        ∀ (env : Env) (s : St), convertOne rf f env s = (.ok f, s)) := by
  refine ⟨?_, ?_, ?_⟩
  · intro env s inputs rf out s₂ h
    unfold prepare_inputs at h
    rcases h₁ : prepareChannels ChannelMode.mono inputs env s with ⟨r₁, sA⟩
    cases r₁ with
    | error e =>
      rw [bind_of_error h₁] at h
      simp at h
    | ok mid =>
      rw [bind_of_ok h₁] at h
      exact ⟨mid, sA, rfl, prepareChannels_mono_ok inputs env s mid sA h₁, h⟩
  · intro td p
    rfl
  · intro rf f h env s
    exact convertOne_matching h env s

/-- Witness for C1: a stereo WAV input negotiated to (ana, mono) —
split first into two tagged mono channels, both then analysed. -/
theorem prepare_inputs_splits_before_conversion_witness :
    ∃ mid s₁,
      prepareChannels ChannelMode.mono [⟨⟨"", "in", "wav"⟩, .wav, .stereo, none⟩]
          { temp_dir := "tmp", chanOf := fun _ => 2, durOf := fun _ => 1,
            execOk := fun _ _ => true }
          ⟨0, [], [], [], [], []⟩
        = (.ok mid, s₁)
      ∧ mid = [(⟨⟨"", "in", "wav"⟩, .wav, .stereo, none⟩ : AudioFile)].flatMap
          (fun f => if f.is_stereo then splitChans "tmp" f.path else [f])
      ∧ convertFormats FileFormat.ana mid
          { temp_dir := "tmp", chanOf := fun _ => 2, durOf := fun _ => 1,
            execOk := fun _ _ => true } s₁
        = (.ok [⟨⟨"tmp", "in_c1_0001", "ana"⟩, .ana, .mono, some 1⟩,
                ⟨⟨"tmp", "in_c2_0002", "ana"⟩, .ana, .mono, some 2⟩],
            (prepare_inputs [⟨⟨"", "in", "wav"⟩, .wav, .stereo, none⟩] FileFormat.ana
              ChannelMode.mono
              { temp_dir := "tmp", chanOf := fun _ => 2, durOf := fun _ => 1,
                execOk := fun _ _ => true }
              ⟨0, [], [], [], [], []⟩).2) :=
  prepare_inputs_splits_before_conversion.1
    { temp_dir := "tmp", chanOf := fun _ => 2, durOf := fun _ => 1,
      execOk := fun _ _ => true }
    ⟨0, [], [], [], [], []⟩
    [⟨⟨"", "in", "wav"⟩, .wav, .stereo, none⟩] FileFormat.ana
    [⟨⟨"tmp", "in_c1_0001", "ana"⟩, .ana, .mono, some 1⟩,
     ⟨⟨"tmp", "in_c2_0002", "ana"⟩, .ana, .mono, some 2⟩]
    (prepare_inputs [⟨⟨"", "in", "wav"⟩, .wav, .stereo, none⟩] FileFormat.ana
      ChannelMode.mono
      { temp_dir := "tmp", chanOf := fun _ => 2, durOf := fun _ => 1,
        execOk := fun _ _ => true }
      ⟨0, [], [], [], [], []⟩).2
    rfl

/-! ### C2: channel fan-out bookkeeping in `execute_operation` -/

theorem process_breakpoints_ok_inv {env : Env} {s : St} {op op₁ : CDPOperation}
    {files : List AudioFile} {s₁ : St}
    (h : process_breakpoints op files env s = (.ok op₁, s₁)) :
    op₁.program = op.program ∧ s₁.invocations = s.invocations ∧ s₁.fs = s.fs := by
  cases hc : op.params.any Param.isCurve with
  | false =>
    rw [process_breakpoints_nocurve env s files hc] at h
    simp only [Prod.mk.injEq, Except.ok.injEq] at h
    obtain ⟨h₁, h₂⟩ := h
    subst h₁
    subst h₂
    exact ⟨rfl, rfl, rfl⟩
  | true =>
    cases files with
    | nil =>
      rw [process_breakpoints_nil env s hc] at h
      simp at h
    | cons f rest =>
      obtain ⟨op₂, s₂, ws, hrun, _, _, hinv, hfs, _, hprog, _⟩ :=
        process_breakpoints_spec env s f rest hc
      rw [hrun] at h
      simp only [Prod.mk.injEq, Except.ok.injEq] at h
      obtain ⟨h₁, h₂⟩ := h
      subst h₁
      subst h₂
      exact ⟨hprog, hinv, hfs⟩

theorem channelKeys_aux :
    ∀ (l : List AudioFile) (acc : List (Option ℕ)) (k : Option ℕ), k ∈ acc →
      k ∈ l.foldl
        (fun ks f => if f.channel_index ∈ ks then ks else ks ++ [f.channel_index]) acc := by
  intro l
  induction l with
  | nil => intro acc k hk; exact hk
  | cons f rest ih =>
    intro acc k hk
    refine ih _ k ?_
    show k ∈ if f.channel_index ∈ acc then acc else acc ++ [f.channel_index]
    by_cases hm : f.channel_index ∈ acc
    · rw [if_pos hm]; exact hk
    · rw [if_neg hm]; exact List.mem_append_left _ hk

theorem mem_channelKeys_of_mem :
    ∀ (l : List AudioFile) (f : AudioFile), f ∈ l → f.channel_index ∈ channelKeys l := by
  have key : ∀ (l : List AudioFile) (acc : List (Option ℕ)) (f : AudioFile), f ∈ l →
      f.channel_index ∈ l.foldl
        (fun ks g => if g.channel_index ∈ ks then ks else ks ++ [g.channel_index]) acc := by
    intro l
    induction l with
    | nil => intro acc f hf; cases hf
    | cons g rest ih =>
      intro acc f hf
      rcases List.mem_cons.mp hf with hfg | hfr
      · subst hfg
        refine channelKeys_aux rest _ _ ?_
        show f.channel_index ∈ if f.channel_index ∈ acc then acc else acc ++ [f.channel_index]
        by_cases hm : f.channel_index ∈ acc
        · rw [if_pos hm]; exact hm
        · rw [if_neg hm]; exact List.mem_append_right _ (by simp)
      · exact ih _ f hfr
  intro l f hf
  exact key l [] f hf

/-- Every descriptor lands in the group keyed by its own channel tag. -/
theorem groupByTag_covers (files : List AudioFile) (f : AudioFile) (hf : f ∈ files) :
    ∃ g, g ∈ groupByTag files ∧ g.1 = f.channel_index ∧ f ∈ g.2 := by
  refine ⟨(f.channel_index, files.filter (fun x => decide (x.channel_index = f.channel_index))),
    ?_, rfl, ?_⟩
  · exact List.mem_map.mpr ⟨f.channel_index, mem_channelKeys_of_mem files f hf, rfl⟩
  · exact List.mem_filter.mpr ⟨hf, by simp⟩

theorem convert_to_ana_tag {env : Env} {s : St} {f r : AudioFile} {s₁ : St}
    (h : convert_to_ana f env s = (.ok r, s₁)) : r.channel_index = f.channel_index := by
  cases hw : f.is_wav with
  | false =>
    unfold convert_to_ana at h
    rw [if_pos (by simp [hw])] at h
    simp only [run_pure, Prod.mk.injEq, Except.ok.injEq] at h
    rw [← h.1]
  | true =>
    unfold convert_to_ana at h
    rw [if_neg (by simp [hw])] at h
    replace h := (bind_of_ok (nextTempFile_run f.path.stem "ana" env s)).symm.trans h
    cases hx : env.execOk "pvoc"
        ["anal", "1", f.path.str,
          (FPath.mk env.temp_dir (f.path.stem ++ "_" ++ padZeros 4 (s.counter + 1))
            "ana").str] with
    | false =>
      replace h := (bind_of_error (shCall_err hx _)).symm.trans h
      simp at h
    | true =>
      replace h := (bind_of_ok (shCall_ok hx _)).symm.trans h
      replace h := (bind_of_ok (addScratch_run _ env _)).symm.trans h
      rw [run_pure] at h
      simp only [Prod.mk.injEq, Except.ok.injEq] at h
      rw [← h.1]

theorem convert_to_wav_tag {env : Env} {s : St} {f r : AudioFile} {s₁ : St}
    (h : convert_to_wav f env s = (.ok r, s₁)) : r.channel_index = f.channel_index := by
  cases hw : f.is_ana with
  | false =>
    unfold convert_to_wav at h
    rw [if_pos (by simp [hw])] at h
    simp only [run_pure, Prod.mk.injEq, Except.ok.injEq] at h
    rw [← h.1]
  | true =>
    unfold convert_to_wav at h
    rw [if_neg (by simp [hw])] at h
    replace h := (bind_of_ok (nextTempFile_run f.path.stem "wav" env s)).symm.trans h
    cases hx : env.execOk "pvoc"
        ["synth", f.path.str,
          (FPath.mk env.temp_dir (f.path.stem ++ "_" ++ padZeros 4 (s.counter + 1))
            "wav").str] with
    | false =>
      replace h := (bind_of_error (shCall_err hx _)).symm.trans h
      simp at h
    | true =>
      replace h := (bind_of_ok (shCall_ok hx _)).symm.trans h
      replace h := (bind_of_ok (addScratch_run _ env _)).symm.trans h
      rw [run_pure] at h
      simp only [Prod.mk.injEq, Except.ok.injEq] at h
      rw [← h.1]

/-- The per-group loop: one output descriptor per group, mono, carrying
that group's key as channel tag, and exactly one external invocation of
the operation's program per group. -/
theorem execGroups_ok :
    ∀ (gs : List (Option ℕ × List AudioFile)) (op : CDPOperation) (base : String)
      (env : Env) (s : St) (outs : List AudioFile) (s₁ : St),
      execGroups op base gs env s = (.ok outs, s₁) →
      outs.map (fun f => (f.channels, f.channel_index))
          = gs.map (fun g => (ChannelMode.mono, g.1))
      ∧ ∃ news, s₁.invocations = s.invocations ++ news
          ∧ news.length = gs.length
          ∧ ∀ x ∈ news, x.1 = op.program := by
  intro gs
  induction gs with
  | nil =>
    intro op base env s outs s₁ h
    rw [show execGroups op base [] = Pure.pure [] from rfl, run_pure] at h
    simp only [Prod.mk.injEq, Except.ok.injEq] at h
    obtain ⟨h₁, h₂⟩ := h
    subst h₂
    exact ⟨by rw [← h₁]; rfl, [], by simp, rfl, by simp⟩
  | cons g rest ih =>
    intro op base env s outs s₁ h
    rcases g with ⟨k, cf⟩
    simp only [execGroups] at h
    replace h := (bind_of_ok (nextTempFile_run _ _ env s)).symm.trans h
    rcases hpb : process_breakpoints op cf env { s with counter := s.counter + 1 }
      with ⟨rpb, sB⟩
    cases rpb with
    | error e =>
      replace h := (bind_of_error hpb).symm.trans h
      simp at h
    | ok processed =>
      replace h := (bind_of_ok hpb).symm.trans h
      obtain ⟨hprog, hinvB, _⟩ := process_breakpoints_ok_inv hpb
      rcases hargs : processed.get_command_args cf
          ⟨⟨env.temp_dir, base ++ tagSuffix k ++ "_" ++ padZeros 4 (s.counter + 1),
              op.output_format.value⟩,
            op.output_format, .mono, k⟩ with _ | cmd_args
      · rw [hargs] at h
        replace h := (throwE_run Err.indexError env sB).symm.trans h
        simp at h
      · rw [hargs] at h
        cases hx : env.execOk processed.program cmd_args with
        | false =>
          replace h := (bind_of_error (shCall_err hx _)).symm.trans h
          simp at h
        | true =>
          replace h := (bind_of_ok (shCall_ok hx _)).symm.trans h
          replace h := (bind_of_ok (addScratch_run _ env _)).symm.trans h
          rcases hrest : execGroups op base rest env
              { sB with
                invocations := sB.invocations ++ [(processed.program, cmd_args)]
                scratch := (sB.scratch ++
                  [⟨env.temp_dir, base ++ tagSuffix k ++ "_" ++ padZeros 4 (s.counter + 1),
                    op.output_format.value⟩]) }
            with ⟨rr, sE⟩
          cases rr with
          | error e =>
            replace h := (bind_of_error hrest).symm.trans h
            simp at h
          | ok more =>
            replace h := (bind_of_ok hrest).symm.trans h
            rw [run_pure] at h
            simp only [Prod.mk.injEq, Except.ok.injEq] at h
            obtain ⟨h₁, h₂⟩ := h
            subst h₂
            obtain ⟨hmap, news, hinv, hlen, hmem⟩ := ih op base env _ more sE hrest
            refine ⟨?_, (processed.program, cmd_args) :: news, ?_, by simp [hlen], ?_⟩
            · rw [← h₁]
              simp only [List.map_cons, hmap]
            · rw [hinv]
              simp [hinvB]
            · intro x hx₁
              rcases List.mem_cons.mp hx₁ with hx₂ | hx₂
              · rw [hx₂, hprog]
              · exact hmem x hx₂

/-- C2: for a mono-requiring operation, a successful `execute_operation`
first negotiates its inputs, then groups the negotiated descriptors by
channel tag (untagged descriptors form the `none` group), produces
exactly one mono output descriptor per group carrying that group's tag,
and performs exactly one external invocation of the operation's program
per group; every descriptor belongs to the group of its own tag, and
the two representation conversions preserve the channel tag. -/
theorem execute_operation_groups_by_tag :
    (∀ (env : Env) (s : St) (op : CDPOperation) (inputs : List AudioFile) (base : String)
        (outs : List AudioFile) (s₁ : St),
      op.input_requirements.channels = ChannelMode.mono →
      execute_operation op inputs base env s = (.ok outs, s₁) →
      ∃ prepared sA,
        prepare_inputs inputs op.input_requirements.format ChannelMode.mono env s
            = (.ok prepared, sA)
        ∧ outs.map (fun f => (f.channels, f.channel_index))
            = (groupByTag prepared).map (fun g => (ChannelMode.mono, g.1))
        ∧ ∃ news, s₁.invocations = sA.invocations ++ news
            ∧ news.length = (groupByTag prepared).length
            ∧ ∀ x ∈ news, x.1 = op.program)
    ∧ (∀ (files : List AudioFile) (f : AudioFile), f ∈ files →
        ∃ g, g ∈ groupByTag files ∧ g.1 = f.channel_index ∧ f ∈ g.2)
    ∧ (∀ (env : Env) (s : St) (f r : AudioFile) (s₁ : St),
        (convert_to_ana f env s = (.ok r, s₁) → r.channel_index = f.channel_index)
        ∧ (convert_to_wav f env s = (.ok r, s₁) → r.channel_index = f.channel_index)) := by
  refine ⟨?_, groupByTag_covers, fun env s f r s₁ => ⟨convert_to_ana_tag, convert_to_wav_tag⟩⟩
  intro env s op inputs base outs s₁ hch h
  unfold execute_operation at h
  rcases hprep : prepare_inputs inputs op.input_requirements.format
      op.input_requirements.channels env s with ⟨rp, sA⟩
  cases rp with
  | error e =>
    replace h := (bind_of_error hprep).symm.trans h
    simp at h
  | ok prepared =>
    replace h := (bind_of_ok hprep).symm.trans h
    rw [if_pos hch] at h
    obtain ⟨hmap, news, hinv, hlen, hmem⟩ :=
      execGroups_ok (groupByTag prepared) op base env sA outs s₁ h
    rw [hch] at hprep
    exact ⟨prepared, sA, hprep, hmap, news, hinv, hlen, hmem⟩

/-- Concrete data for the C2 witness: a stereo WAV input through a
mono spectral operation. -/
def c2Env : Env :=
  { temp_dir := "tmp", chanOf := fun _ => 2, durOf := fun _ => 1, execOk := fun _ _ => true }

def c2In : AudioFile := ⟨⟨"", "in", "wav"⟩, .wav, .stereo, none⟩

def c2Op : CDPOperation :=
  { name := "blur", program := "blur", subcommand := some "blur", params := [.scalar "2.0"] }

def c2Prepared : List AudioFile :=
  [⟨⟨"tmp", "in_c1_0001", "ana"⟩, .ana, .mono, some 1⟩,
   ⟨⟨"tmp", "in_c2_0002", "ana"⟩, .ana, .mono, some 2⟩]

def c2StPrep : St :=
  { counter := 2
    scratch := [⟨"tmp", "in", "wav"⟩, ⟨"tmp", "in_c1", "wav"⟩, ⟨"tmp", "in_c2", "wav"⟩,
                ⟨"tmp", "in_c1_0001", "ana"⟩, ⟨"tmp", "in_c2_0002", "ana"⟩]
    bpFiles := []
    probes := []
    invocations := [("housekeep", ["chans", "2", "tmp/in.wav"]),
                    ("pvoc", ["anal", "1", "tmp/in_c1.wav", "tmp/in_c1_0001.ana"]),
                    ("pvoc", ["anal", "1", "tmp/in_c2.wav", "tmp/in_c2_0002.ana"])]
    fs := [] }

def c2Outs : List AudioFile :=
  [⟨⟨"tmp", "out_c1_0003", "ana"⟩, .ana, .mono, some 1⟩,
   ⟨⟨"tmp", "out_c2_0004", "ana"⟩, .ana, .mono, some 2⟩]

def c2StFinal : St :=
  { c2StPrep with
    counter := 4
    scratch := c2StPrep.scratch ++ [⟨"tmp", "out_c1_0003", "ana"⟩, ⟨"tmp", "out_c2_0004", "ana"⟩]
    invocations := c2StPrep.invocations ++
      [("blur", ["blur", "tmp/in_c1_0001.ana", "tmp/out_c1_0003.ana", "2.0"]),
       ("blur", ["blur", "tmp/in_c2_0002.ana", "tmp/out_c2_0004.ana", "2.0"])] }

theorem c2_run_eq :
    execute_operation c2Op [c2In] "out" c2Env ⟨0, [], [], [], [], []⟩
      = (.ok c2Outs, c2StFinal) := by
  have hprep : prepare_inputs [c2In] FileFormat.ana ChannelMode.mono c2Env
      ⟨0, [], [], [], [], []⟩ = (.ok c2Prepared, c2StPrep) := by decide
  have hg : execGroups c2Op "out" (groupByTag c2Prepared) c2Env c2StPrep
      = (.ok c2Outs, c2StFinal) := by decide
  unfold execute_operation
  refine (bind_of_ok hprep).trans ?_
  show execGroups c2Op "out" (groupByTag c2Prepared) c2Env c2StPrep = (.ok c2Outs, c2StFinal)
  exact hg

/-- Witness for C2: the stereo input yields two groups (left, right),
one invocation and one tagged output each. -/
theorem execute_operation_groups_by_tag_witness :
    ∃ prepared sA,
      prepare_inputs [c2In] c2Op.input_requirements.format ChannelMode.mono c2Env
          ⟨0, [], [], [], [], []⟩
        = (.ok prepared, sA)
      ∧ c2Outs.map (fun f => (f.channels, f.channel_index))
          = (groupByTag prepared).map (fun g => (ChannelMode.mono, g.1))
      ∧ ∃ news, c2StFinal.invocations = sA.invocations ++ news
          ∧ news.length = (groupByTag prepared).length
          ∧ ∀ x ∈ news, x.1 = c2Op.program :=
  execute_operation_groups_by_tag.1 c2Env ⟨0, [], [], [], [], []⟩ c2Op [c2In] "out"
    c2Outs c2StFinal rfl c2_run_eq

/-! ### C7: Stereo negotiation from a Mono source fails -/

theorem prepareChannels_stereo_mono :
    ∀ (inputs : List AudioFile) (f : AudioFile), f ∈ inputs → f.is_mono = true →
      ∀ (env : Env) (s : St), ∃ msg,
        prepareChannels ChannelMode.stereo inputs env s = (.error (.valueError msg), s) := by
  intro inputs
  induction inputs with
  | nil => intro f hf; cases hf
  | cons g rest ih =>
    intro f hf hm env s
    simp only [prepareChannels]
    rw [if_neg (by simp)]
    cases hgm : g.is_mono with
    | true =>
      rw [if_pos (by simp [hgm])]
      exact ⟨_, throwE_run _ env s⟩
    | false =>
      rw [if_neg (by simp [hgm])]
      have hfr : f ∈ rest := by
        rcases List.mem_cons.mp hf with hfg | hfr
        · rw [hfg] at hm
          rw [hm] at hgm
          cases hgm
        · exact hfr
      obtain ⟨msg, hrest⟩ := ih f hfr hm env s
      exact ⟨msg, bind_of_error hrest⟩

theorem prepare_inputs_stereo_mono {inputs : List AudioFile} {f : AudioFile}
    (hf : f ∈ inputs) (hm : f.is_mono = true) (rf : FileFormat) (env : Env) (s : St) :
    ∃ msg, prepare_inputs inputs rf ChannelMode.stereo env s
      = (.error (.valueError msg), s) := by
  obtain ⟨msg, h⟩ := prepareChannels_stereo_mono inputs f hf hm env s
  refine ⟨msg, ?_⟩
  unfold prepare_inputs
  exact bind_of_error h

/-- A path whose probe yields a mono descriptor: a `.ana` file (mono
assumed) or a `.wav` file the channel oracle reports as 1. -/
def probesMono (env : Env) (p : FPath) : Prop :=
  p.ext = "ana" ∨ (p.ext = "wav" ∧ env.chanOf p.str = 1)

theorem get_file_info_ana {p : FPath} (h : p.ext = "ana") (env : Env) (s : St) :
    get_file_info p env s = (.ok (.ana, .mono), s) := by
  unfold get_file_info
  rw [if_pos h]

theorem get_file_info_wav_run (p : FPath) (env : Env) (s : St) (hw : p.ext = "wav") :
    get_file_info p env s =
      ((match ChannelMode.ofNat? (env.chanOf p.str) with
        | some ch => .ok (FileFormat.wav, ch)
        | none => .error (.runtimeError ("Failed to get channel info for " ++ p.str))),
       { s with probes := s.probes ++ [("sfprops", p.str)] }) := by
  unfold get_file_info
  rw [if_neg (show ¬ p.ext = "ana" from by rw [hw]; decide), if_pos hw]
  rcases hm : ChannelMode.ofNat? (env.chanOf p.str) with _ | ch
  · rfl
  · rfl

theorem get_file_info_mono_run {env : Env} {p : FPath} (h : probesMono env p) (s : St) :
    ∃ fmt s₁, get_file_info p env s = (.ok (fmt, ChannelMode.mono), s₁) ∧ s₁.fs = s.fs := by
  rcases h with hana | ⟨hw, hc⟩
  · exact ⟨.ana, s, get_file_info_ana hana env s, rfl⟩
  · refine ⟨.wav, { s with probes := s.probes ++ [("sfprops", p.str)] }, ?_, rfl⟩
    have h₁ := get_file_info_wav_run p env s hw
    rw [hc] at h₁
    exact h₁

theorem requireExists_ok {p : FPath} {s : St} (h : p ∈ s.fs) (env : Env) :
    requireExists p env s = (.ok (), s) := by
  unfold requireExists
  rw [if_pos h]

theorem probeFiles_mono :
    ∀ (ps : List FPath) (env : Env) (s : St),
      (∀ p ∈ ps, p ∈ s.fs ∧ probesMono env p) →
      ∃ files s₁, probeFiles ps env s = (.ok files, s₁)
        ∧ s₁.fs = s.fs ∧ files.length = ps.length
        ∧ ∀ f ∈ files, f.channels = ChannelMode.mono := by
  intro ps
  induction ps with
  | nil =>
    intro env s _
    exact ⟨[], s, rfl, rfl, rfl, by simp⟩
  | cons p rest ih =>
    intro env s h
    obtain ⟨hmem, hpm⟩ := h p (by simp)
    obtain ⟨fmt, sP, hgfi, hfsP⟩ := get_file_info_mono_run hpm s
    obtain ⟨files, s₁, hrun, hfs₁, hlen, hmono⟩ := ih env sP
      (fun q hq => ⟨by rw [hfsP]; exact (h q (by simp [hq])).1, (h q (by simp [hq])).2⟩)
    refine ⟨⟨p, fmt, .mono, none⟩ :: files, s₁, ?_, by rw [hfs₁, hfsP], by simp [hlen], ?_⟩
    · simp only [probeFiles]
      refine (bind_of_ok (requireExists_ok hmem env)).trans ?_
      refine (bind_of_ok hgfi).trans ?_
      refine (bind_of_ok hrun).trans ?_
      rfl
    · intro f hf
      rcases List.mem_cons.mp hf with h₁ | h₁
      · rw [h₁]
      · exact hmono f h₁

theorem cleanupSt_fs (k : Bool) (s : St) : (cleanupSt k s).fs = s.fs := by
  unfold cleanupSt
  split <;> rfl

theorem mem_unlinkFs_self (output : FPath) (s : St) : output ∉ (unlinkFs output s).fs := by
  intro h
  have := (List.mem_filter.mp h).2
  simp at this

theorem mem_unlinkFs_of_ne {q output : FPath} (h : ¬ q = output) {s : St} (hq : q ∈ s.fs) :
    q ∈ (unlinkFs output s).fs :=
  List.mem_filter.mpr ⟨hq, by simp [h]⟩

theorem is_mono_of_channels {f : AudioFile} (h : f.channels = ChannelMode.mono) :
    f.is_mono = true := by
  unfold AudioFile.is_mono
  rw [h]

/-- C7: requesting Stereo negotiation when some input descriptor is
Mono fails with the configuration error (`ValueError`, state
untouched); at run level, a pipeline whose first operation requires
Stereo, fed only inputs that probe as Mono, aborts with that error and
leaves no file produced at the requested output path (a file can
remain there only if it already existed and `overwrite` was off). -/
theorem stereo_from_mono_fails :
    (∀ (inputs : List AudioFile) (f : AudioFile), f ∈ inputs → f.is_mono = true →
      ∀ (rf : FileFormat) (env : Env) (s : St), ∃ msg,
        prepare_inputs inputs rf ChannelMode.stereo env s = (.error (.valueError msg), s))
    ∧ (∀ (env : Env) (s : St) (op : CDPOperation) (ops : List CDPOperation)
        (p : FPath) (ps : List FPath) (output : FPath) (opts : RunOpts),
      op.input_requirements.channels = ChannelMode.stereo →
      (∀ q ∈ p :: ps, q ∈ s.fs ∧ ¬ q = output ∧ probesMono env q) →
      ∃ msg,
        (Pipeline.run (op :: ops) (p :: ps) output opts env s).1
            = .error (.valueError msg)
        ∧ (output ∈ ((Pipeline.run (op :: ops) (p :: ps) output opts env s).2).fs →
            output ∈ s.fs ∧ opts.overwrite = false)) := by
  constructor
  · intro inputs f hf hm rf env s
    exact prepare_inputs_stereo_mono hf hm rf env s
  · intro env s op ops p ps output opts hch h
    set s₀ : St := if opts.overwrite ∧ output ∈ s.fs then unlinkFs output s else s with hs₀
    have hfs₀ : ∀ q ∈ p :: ps, q ∈ s₀.fs := by
      intro q hq
      obtain ⟨hqs, hqo, _⟩ := h q hq
      rw [hs₀]
      split
      · exact mem_unlinkFs_of_ne hqo hqs
      · exact hqs
    obtain ⟨files, s₁, hprobe, hfs₁, hlen, hmono⟩ := probeFiles_mono (p :: ps) env s₀
      (fun q hq => ⟨hfs₀ q hq, (h q hq).2.2⟩)
    cases files with
    | nil => simp at hlen
    | cons f₀ frest =>
      obtain ⟨msg, hperr⟩ := @prepare_inputs_stereo_mono (f₀ :: frest) f₀
        (by simp) (is_mono_of_channels (hmono f₀ (by simp)))
        op.input_requirements.format env s₁
      have hperr₁ : prepare_inputs (f₀ :: frest) op.input_requirements.format
          op.input_requirements.channels env s₁ = (.error (.valueError msg), s₁) := by
        rw [hch]
        exact hperr
      have heo : execute_operation op (f₀ :: frest)
          ("op" ++ padZeros 2 0 ++ "_" ++ op.name) env s₁
          = (.error (.valueError msg), s₁) := by
        unfold execute_operation
        exact bind_of_error hperr₁
      have hrops : runOps 0 (op :: ops) (f₀ :: frest) env s₁
          = (.error (.valueError msg), s₁) := by
        simp only [runOps]
        exact bind_of_error heo
      have hbody : runBody (op :: ops) (p :: ps) output opts env s₀
          = (.error (.valueError msg), s₁) := by
        unfold runBody
        refine (bind_of_ok hprobe).trans ?_
        exact bind_of_error hrops
      have hPR : Pipeline.run (op :: ops) (p :: ps) output opts env s
          = ((runBody (op :: ops) (p :: ps) output opts env s₀).1,
             cleanupSt opts.keep_temp
               (runBody (op :: ops) (p :: ps) output opts env s₀).2) := rfl
      rw [hbody] at hPR
      have hrun : Pipeline.run (op :: ops) (p :: ps) output opts env s
          = (.error (.valueError msg), cleanupSt opts.keep_temp s₁) := hPR
      refine ⟨msg, by rw [hrun], ?_⟩
      intro hout
      rw [hrun] at hout
      simp only [cleanupSt_fs] at hout
      rw [hfs₁] at hout
      by_cases hc : opts.overwrite = true ∧ output ∈ s.fs
      · exfalso
        rw [hs₀] at hout
        rw [if_pos hc] at hout
        exact mem_unlinkFs_self output s hout
      · have hmem : output ∈ s.fs := by
          rw [hs₀] at hout
          by_cases hc₂ : opts.overwrite = true ∧ output ∈ s.fs
          · exact absurd hc₂ hc
          · rwa [if_neg hc₂] at hout
        refine ⟨hmem, ?_⟩
        rcases hov : opts.overwrite with _ | _
        · rfl
        · exact absurd ⟨hov, hmem⟩ hc

/-- Witness for C7 at a concrete run: one mono WAV input into a
stereo-requiring operation, with a stale file at the output path and
`overwrite` off. -/
theorem stereo_from_mono_fails_witness :
    ∃ msg,
      (Pipeline.run
          [{ name := "m", program := "m",
             input_requirements := ⟨.wav, .stereo⟩, output_format := .wav }]
          [⟨"", "in", "wav"⟩] ⟨"", "out", "wav"⟩ {}
          { temp_dir := "tmp", chanOf := fun _ => 1, durOf := fun _ => 1,
            execOk := fun _ _ => true }
          ⟨0, [], [], [], [], [⟨"", "in", "wav"⟩]⟩).1
        = .error (.valueError msg)
      ∧ (⟨"", "out", "wav"⟩ ∈ ((Pipeline.run
          [{ name := "m", program := "m",
             input_requirements := ⟨.wav, .stereo⟩, output_format := .wav }]
          [⟨"", "in", "wav"⟩] ⟨"", "out", "wav"⟩ {}
          { temp_dir := "tmp", chanOf := fun _ => 1, durOf := fun _ => 1,
            execOk := fun _ _ => true }
          ⟨0, [], [], [], [], [⟨"", "in", "wav"⟩]⟩).2).fs →
          (⟨"", "out", "wav"⟩ : FPath) ∈ [(⟨"", "in", "wav"⟩ : FPath)]
          ∧ (({} : RunOpts)).overwrite = false) :=
  stereo_from_mono_fails.2
    { temp_dir := "tmp", chanOf := fun _ => 1, durOf := fun _ => 1,
      execOk := fun _ _ => true }
    ⟨0, [], [], [], [], [⟨"", "in", "wav"⟩]⟩
    { name := "m", program := "m",
      input_requirements := ⟨.wav, .stereo⟩, output_format := .wav }
    [] ⟨"", "in", "wav"⟩ [] ⟨"", "out", "wav"⟩ {}
    rfl
    (by
      intro q hq
      simp only [List.mem_singleton] at hq
      subst hq
      refine ⟨by simp, by decide, Or.inr ⟨rfl, rfl⟩⟩)

/-! ### C8: what the probe stage actually queries -/

/-- Counterexample to C8 as stated: for a Spectral (`.ana`) input path
the channel layout is assumed Mono without any toolset query — here the
channel oracle reports 2 (Stereo), no probe is recorded, and the
descriptor still says Mono. -/
theorem get_file_info_ana_assumes_mono :
    get_file_info ⟨"", "x", "ana"⟩
        { temp_dir := "tmp", chanOf := fun _ => 2, durOf := fun _ => 1,
          execOk := fun _ _ => true }
        ⟨0, [], [], [], [], []⟩
      = (.ok (.ana, .mono), ⟨0, [], [], [], [], []⟩)
    ∧ ChannelMode.ofNat?
        (({ temp_dir := "tmp", chanOf := fun _ => 2, durOf := fun _ => 1,
            execOk := fun _ _ => true } : Env).chanOf (FPath.mk "" "x" "ana").str)
      = some ChannelMode.stereo
    ∧ ({ counter := 0, scratch := [], bpFiles := [], probes := [], invocations := [],
          fs := [] } : St).probes = [] :=
  ⟨rfl, rfl, rfl⟩

/-- C8 (amended): the probe derives the format from the file extension
(`ValueError` on any other suffix); only for a WAV path is the channel
layout obtained from the toolset (`sfprops -c`, recorded as a probe),
with counts other than 1 or 2 raising; for a Spectral (`.ana`) path
Mono is assumed and no query is made; duration is not queried at this
stage. -/
theorem get_file_info_probe_behavior :
    ∀ (env : Env) (s : St) (p : FPath),
      (p.ext = "ana" → get_file_info p env s = (.ok (.ana, .mono), s))
      ∧ (p.ext = "wav" →
          get_file_info p env s =
            ((match ChannelMode.ofNat? (env.chanOf p.str) with
              | some ch => .ok (FileFormat.wav, ch)
              | none => .error (.runtimeError ("Failed to get channel info for " ++ p.str))),
             { s with probes := s.probes ++ [("sfprops", p.str)] }))
      ∧ (¬ p.ext = "ana" → ¬ p.ext = "wav" →
          get_file_info p env s
            = (.error (.valueError ("Unknown file format: ." ++ p.ext)), s)) := by
  intro env s p
  refine ⟨fun h => get_file_info_ana h env s, fun h => get_file_info_wav_run p env s h, ?_⟩
  intro h₁ h₂
  unfold get_file_info
  rw [if_neg h₁, if_neg h₂]

/-- Witness for C8 (amended) at a `.ana` path and a `.wav` path whose
channel oracle reports 2. -/
theorem get_file_info_probe_behavior_witness :
    get_file_info ⟨"", "a", "ana"⟩ c2Env ⟨0, [], [], [], [], []⟩
        = (.ok (.ana, .mono), ⟨0, [], [], [], [], []⟩)
    ∧ get_file_info ⟨"", "w", "wav"⟩ c2Env ⟨0, [], [], [], [], []⟩
        = (.ok (.wav, .stereo), ⟨0, [], [], [("sfprops", "w.wav")], [], []⟩) :=
  ⟨(get_file_info_probe_behavior c2Env ⟨0, [], [], [], [], []⟩ ⟨"", "a", "ana"⟩).1 rfl,
   ((get_file_info_probe_behavior c2Env ⟨0, [], [], [], [], []⟩ ⟨"", "w", "wav"⟩).2.1
      rfl).trans (by decide)⟩

/-! ### C9: scoped release of the scratch area -/

theorem cleanupSt_false (s : St) : cleanupSt false s = { s with scratch := [], bpFiles := [] } := by
  unfold cleanupSt
  rw [if_neg (by simp)]

theorem cleanupSt_true (s : St) : cleanupSt true s = s := by
  unfold cleanupSt
  rw [if_pos rfl]

/-- C9: whatever the run's outcome (success or any failure — the
statement is unconditional in the result), the scratch area is empty
after teardown when retention was not requested, and is exactly the
scratch area the body left behind when `keep_temp` was requested. -/
theorem cleanup_scoped_release :
    ∀ (env : Env) (s : St) (ops : List CDPOperation) (inputs : List FPath)
      (output : FPath) (opts : RunOpts),
      (opts.keep_temp = false →
        ((Pipeline.run ops inputs output opts env s).2).scratch = []
        ∧ ((Pipeline.run ops inputs output opts env s).2).bpFiles = [])
      ∧ (opts.keep_temp = true →
        (Pipeline.run ops inputs output opts env s).2
          = (runBody ops inputs output opts env
              (if opts.overwrite ∧ output ∈ s.fs then unlinkFs output s else s)).2) := by
  intro env s ops inputs output opts
  have hPR : (Pipeline.run ops inputs output opts env s).2
      = cleanupSt opts.keep_temp
          (runBody ops inputs output opts env
            (if opts.overwrite ∧ output ∈ s.fs then unlinkFs output s else s)).2 := rfl
  constructor
  · intro hk
    rw [hPR, hk, cleanupSt_false]
    exact ⟨rfl, rfl⟩
  · intro hk
    rw [hPR, hk, cleanupSt_true]

/-- Witness for C9: a failing run (missing input) with `keep_temp`
off leaves an empty scratch area; the same run with `keep_temp` on
retains exactly what the body left. -/
theorem cleanup_scoped_release_witness :
    (((Pipeline.run [] [⟨"", "missing", "wav"⟩] ⟨"", "out", "wav"⟩ {} c2Env
        ⟨0, [], [], [], [], []⟩).2).scratch = []
      ∧ ((Pipeline.run [] [⟨"", "missing", "wav"⟩] ⟨"", "out", "wav"⟩ {} c2Env
        ⟨0, [], [], [], [], []⟩).2).bpFiles = [])
    ∧ (Pipeline.run [] [⟨"", "missing", "wav"⟩] ⟨"", "out", "wav"⟩ { keep_temp := true }
        c2Env ⟨0, [], [], [], [], []⟩).2
      = (runBody [] [⟨"", "missing", "wav"⟩] ⟨"", "out", "wav"⟩ { keep_temp := true } c2Env
          (if ({ keep_temp := true } : RunOpts).overwrite
              ∧ (⟨"", "out", "wav"⟩ : FPath) ∈ ([] : List FPath)
            then unlinkFs ⟨"", "out", "wav"⟩ ⟨0, [], [], [], [], []⟩
            else ⟨0, [], [], [], [], []⟩)).2 :=
  ⟨(cleanup_scoped_release c2Env ⟨0, [], [], [], [], []⟩ [] [⟨"", "missing", "wav"⟩]
      ⟨"", "out", "wav"⟩ {}).1 rfl,
   (cleanup_scoped_release c2Env ⟨0, [], [], [], [], []⟩ [] [⟨"", "missing", "wav"⟩]
      ⟨"", "out", "wav"⟩ { keep_temp := true }).2 rfl⟩

/-! ### C10: overwrite deletes up front and nothing restores it -/

theorem Preserves.ite {γ α : Type} {g : St → γ} (c : Prop) [Decidable c] {A B : ExecM α}
    (hA : Preserves g A) (hB : Preserves g B) : Preserves g (if c then A else B) := by
  by_cases h : c
  · rwa [if_pos h]
  · rwa [if_neg h]

theorem fsPres_nextTempFile (b e : String) :
    Preserves (fun st => st.fs) (nextTempFile b e) := fun _ _ => rfl

theorem fsPres_addScratch (p : FPath) :
    Preserves (fun st => st.fs) (addScratch p) := fun _ _ => rfl

theorem fsPres_logProbe (t p : String) :
    Preserves (fun st => st.fs) (logProbe t p) := fun _ _ => rfl

theorem fsPres_write_breakpoint_file (b : Breakpoint) (d : ℚ) (nm : String) :
    Preserves (fun st => st.fs) (write_breakpoint_file b d nm) := fun _ _ => rfl

theorem fsPres_get_duration (f : AudioFile) :
    Preserves (fun st => st.fs) (get_duration f) := fun _ _ => rfl

theorem fsPres_requireExists (p : FPath) :
    Preserves (fun st => st.fs) (requireExists p) := by
  intro env s
  unfold requireExists
  split <;> rfl

theorem fsPres_shCall (p : String) (args : List String) :
    Preserves (fun st => st.fs) (shCall p args) := by
  intro env s
  unfold shCall
  split <;> rfl

theorem fsPres_get_file_info (p : FPath) :
    Preserves (fun st => st.fs) (get_file_info p) := by
  intro env s
  unfold get_file_info
  split
  · rfl
  · split
    · split <;> rfl
    · rfl

theorem fsPres_split_stereo (f : AudioFile) :
    Preserves (fun st => st.fs) (split_stereo f) := by
  unfold split_stereo
  split
  · exact Preserves.pure _ _
  · refine Preserves.bind (Preserves.getEnv _) (fun e => ?_)
    refine Preserves.bind (fsPres_addScratch _) (fun _ => ?_)
    refine Preserves.bind (fsPres_shCall _ _) (fun _ => ?_)
    refine Preserves.bind (fsPres_addScratch _) (fun _ => ?_)
    refine Preserves.bind (fsPres_addScratch _) (fun _ => ?_)
    exact Preserves.pure _ _

theorem fsPres_convert_to_ana (f : AudioFile) :
    Preserves (fun st => st.fs) (convert_to_ana f) := by
  unfold convert_to_ana
  split
  · exact Preserves.pure _ _
  · refine Preserves.bind (fsPres_nextTempFile _ _) (fun p => ?_)
    refine Preserves.bind (fsPres_shCall _ _) (fun _ => ?_)
    refine Preserves.bind (fsPres_addScratch _) (fun _ => ?_)
    exact Preserves.pure _ _

theorem fsPres_convert_to_wav (f : AudioFile) :
    Preserves (fun st => st.fs) (convert_to_wav f) := by
  unfold convert_to_wav
  split
  · exact Preserves.pure _ _
  · refine Preserves.bind (fsPres_nextTempFile _ _) (fun p => ?_)
    refine Preserves.bind (fsPres_shCall _ _) (fun _ => ?_)
    refine Preserves.bind (fsPres_addScratch _) (fun _ => ?_)
    exact Preserves.pure _ _

theorem fsPres_convertOne (rf : FileFormat) (f : AudioFile) :
    Preserves (fun st => st.fs) (convertOne rf f) := by
  unfold convertOne
  split
  · exact fsPres_convert_to_ana f
  · split
    · exact fsPres_convert_to_wav f
    · exact Preserves.pure _ _

theorem fsPres_convertFormats (rf : FileFormat) :
    ∀ l : List AudioFile, Preserves (fun st => st.fs) (convertFormats rf l) := by
  intro l
  induction l with
  | nil => exact Preserves.pure _ _
  | cons f rest ih =>
    simp only [convertFormats]
    refine Preserves.bind (fsPres_convertOne rf f) (fun c => ?_)
    refine Preserves.bind ih (fun more => ?_)
    exact Preserves.pure _ _

theorem fsPres_prepareChannels (rc : ChannelMode) :
    ∀ l : List AudioFile, Preserves (fun st => st.fs) (prepareChannels rc l) := by
  intro l
  induction l with
  | nil => exact Preserves.pure _ _
  | cons f rest ih =>
    simp only [prepareChannels]
    split
    · refine Preserves.bind (fsPres_split_stereo f) (fun mf => ?_)
      refine Preserves.bind ih (fun more => ?_)
      exact Preserves.pure _ _
    · split
      · exact Preserves.throwE _ _
      · refine Preserves.bind ih (fun more => ?_)
        exact Preserves.pure _ _

theorem fsPres_prepare_inputs (inputs : List AudioFile) (rf : FileFormat)
    (rc : ChannelMode) : Preserves (fun st => st.fs) (prepare_inputs inputs rf rc) := by
  unfold prepare_inputs
  exact Preserves.bind (fsPres_prepareChannels rc inputs) (fun mid => fsPres_convertFormats rf mid)

theorem fsPres_processParams (nm : String) (d : ℚ) (i : ℕ) (ps : List Param) :
    Preserves (fun st => st.fs) (processParams nm d i ps) := by
  intro env s
  obtain ⟨qs, s₁, ws, hrun, _, _, _, hfs, _⟩ := processParams_spec ps nm d i env s
  rw [hrun]
  exact hfs

theorem fsPres_process_breakpoints (op : CDPOperation) (files : List AudioFile) :
    Preserves (fun st => st.fs) (process_breakpoints op files) := by
  intro env s
  cases hc : op.params.any Param.isCurve with
  | false => rw [process_breakpoints_nocurve env s files hc]
  | true =>
    cases files with
    | nil => rw [process_breakpoints_nil env s hc]
    | cons f rest =>
      obtain ⟨op₁, s₁, ws, hrun, _, _, _, hfs, _⟩ := process_breakpoints_spec env s f rest hc
      rw [hrun]
      exact hfs

theorem fsPres_execGroups (op : CDPOperation) (base : String) :
    ∀ gs : List (Option ℕ × List AudioFile),
      Preserves (fun st => st.fs) (execGroups op base gs) := by
  intro gs
  induction gs with
  | nil => exact Preserves.pure _ _
  | cons g rest ih =>
    rcases g with ⟨k, cf⟩
    simp only [execGroups]
    refine Preserves.bind (fsPres_nextTempFile _ _) (fun p => ?_)
    refine Preserves.bind (fsPres_process_breakpoints _ _) (fun processed => ?_)
    split
    · exact Preserves.throwE _ _
    · refine Preserves.bind (fsPres_shCall _ _) (fun _ => ?_)
      refine Preserves.bind (fsPres_addScratch _) (fun _ => ?_)
      refine Preserves.bind ih (fun more => ?_)
      exact Preserves.pure _ _

theorem fsPres_execute_operation (op : CDPOperation) (inputs : List AudioFile)
    (base : String) : Preserves (fun st => st.fs) (execute_operation op inputs base) := by
  unfold execute_operation
  refine Preserves.bind (fsPres_prepare_inputs _ _ _) (fun prepared => ?_)
  split
  · exact fsPres_execGroups op base (groupByTag prepared)
  · refine Preserves.bind (fsPres_nextTempFile _ _) (fun p => ?_)
    refine Preserves.bind (fsPres_process_breakpoints _ _) (fun processed => ?_)
    split
    · exact Preserves.throwE _ _
    · refine Preserves.bind (fsPres_shCall _ _) (fun _ => ?_)
      refine Preserves.bind (fsPres_addScratch _) (fun _ => ?_)
      exact Preserves.pure _ _

theorem fsPres_probeFiles :
    ∀ ps : List FPath, Preserves (fun st => st.fs) (probeFiles ps) := by
  intro ps
  induction ps with
  | nil => exact Preserves.pure _ _
  | cons p rest ih =>
    simp only [probeFiles]
    refine Preserves.bind (fsPres_requireExists p) (fun _ => ?_)
    refine Preserves.bind (fsPres_get_file_info p) (fun info => ?_)
    refine Preserves.bind ih (fun more => ?_)
    exact Preserves.pure _ _

theorem fsPres_runOps :
    ∀ (ops : List CDPOperation) (i : ℕ) (files : List AudioFile),
      Preserves (fun st => st.fs) (runOps i ops files) := by
  intro ops
  induction ops with
  | nil => intro i files; exact Preserves.pure _ _
  | cons op rest ih =>
    intro i files
    simp only [runOps]
    refine Preserves.bind (fsPres_execute_operation _ _ _) (fun next => ?_)
    exact ih (i + 1) next

theorem fsPres_convertAll (fmt : FileFormat) :
    ∀ l : List AudioFile, Preserves (fun st => st.fs) (convertAll fmt l) := by
  intro l
  induction l with
  | nil => exact Preserves.pure _ _
  | cons f rest ih =>
    cases fmt with
    | wav =>
      simp only [convertAll]
      refine Preserves.bind (fsPres_convert_to_wav f) (fun c => ?_)
      refine Preserves.bind ih (fun more => ?_)
      exact Preserves.pure _ _
    | ana =>
      simp only [convertAll]
      refine Preserves.bind (fsPres_convert_to_ana f) (fun c => ?_)
      refine Preserves.bind ih (fun more => ?_)
      exact Preserves.pure _ _

theorem merge_stereo_err_fs {l r : AudioFile} {o : FPath} {env : Env} {s : St} {e : Err}
    {s₁ : St} (h : merge_stereo l r o env s = (.error e, s₁)) : s₁.fs = s.fs := by
  unfold merge_stereo at h
  split at h
  · rw [throwE_run] at h
    simp only [Prod.mk.injEq, Except.error.injEq] at h
    rw [← h.2]
  · split at h
    · rw [throwE_run] at h
      simp only [Prod.mk.injEq, Except.error.injEq] at h
      rw [← h.2]
    · cases hx : env.execOk "submix" ["interleave", l.path.str, r.path.str, o.str] with
      | false =>
        replace h := (bind_of_error (shCall_err hx _)).symm.trans h
        simp only [Prod.mk.injEq, Except.error.injEq] at h
        rw [← h.2]
      | true =>
        replace h := (bind_of_ok (shCall_ok hx _)).symm.trans h
        replace h : ((.ok (⟨o, .wav, .stereo, none⟩ : AudioFile) : Except Err AudioFile),
            ({ s with
                invocations := s.invocations ++
                  [("submix", ["interleave", l.path.str, r.path.str, o.str])]
                fs := s.fs ++ [o] } : St)) = (.error e, s₁) := h
        simp at h

theorem fsPres_ensureWav (f : AudioFile) :
    Preserves (fun st => st.fs) (ensureWav f) := by
  unfold ensureWav
  exact Preserves.ite _ (fsPres_convert_to_wav f) (Preserves.pure _ f)

theorem mergeBranch_err_fs {l r : AudioFile} {o : FPath} {env : Env} {s : St} {e : Err}
    {s₁ : St} (h : mergeBranch l r o env s = (.error e, s₁)) : s₁.fs = s.fs := by
  unfold mergeBranch at h
  rcases hL : ensureWav l env s with ⟨rl, sL⟩
  have hfsL : sL.fs = s.fs := by
    have hh := fsPres_ensureWav l env s
    rw [hL] at hh
    exact hh
  cases rl with
  | error el =>
    replace h := (bind_of_error hL).symm.trans h
    simp only [Prod.mk.injEq, Except.error.injEq] at h
    rw [← h.2, hfsL]
  | ok left =>
    replace h := (bind_of_ok hL).symm.trans h
    rcases hR : ensureWav r env sL with ⟨rr, sR⟩
    have hfsR : sR.fs = sL.fs := by
      have hh := fsPres_ensureWav r env sL
      rw [hR] at hh
      exact hh
    cases rr with
    | error er =>
      replace h := (bind_of_error hR).symm.trans h
      simp only [Prod.mk.injEq, Except.error.injEq] at h
      rw [← h.2, hfsR, hfsL]
    | ok right =>
      replace h := (bind_of_ok hR).symm.trans h
      rw [merge_stereo_err_fs h, hfsR, hfsL]

theorem copyToOutput_run (f : AudioFile) (o : FPath) (env : Env) (s : St) :
    copyToOutput f o env s = (.ok { f with path := o }, { s with fs := s.fs ++ [o] }) := rfl

theorem finalizeChannels_err_fs {oc : Option ChannelMode} {iss : Bool} {o : FPath}
    {current : List AudioFile} {env : Env} {s : St} {e : Err} {s₁ : St}
    (h : finalizeChannels oc iss o current env s = (.error e, s₁)) : s₁.fs = s.fs := by
  unfold finalizeChannels at h
  split at h
  · split at h
    · exact mergeBranch_err_fs h
    · split at h
      · rw [copyToOutput_run] at h
        simp at h
      · rw [throwE_run] at h
        simp only [Prod.mk.injEq, Except.error.injEq] at h
        rw [← h.2]
    · rw [throwE_run] at h
      simp only [Prod.mk.injEq, Except.error.injEq] at h
      rw [← h.2]
  · split at h
    · rw [copyToOutput_run] at h
      simp at h
    · rw [throwE_run] at h
      simp only [Prod.mk.injEq, Except.error.injEq] at h
      rw [← h.2]

theorem runBody_err_fs {ops : List CDPOperation} {inputs : List FPath} {output : FPath}
    {opts : RunOpts} {env : Env} {s : St} {e : Err} {s₁ : St}
    (h : runBody ops inputs output opts env s = (.error e, s₁)) : s₁.fs = s.fs := by
  unfold runBody at h
  rcases hp : probeFiles inputs env s with ⟨rp, sA⟩
  have hfsA : sA.fs = s.fs := by
    have hh := fsPres_probeFiles inputs env s
    rw [hp] at hh
    exact hh
  cases rp with
  | error ep =>
    replace h := (bind_of_error hp).symm.trans h
    simp only [Prod.mk.injEq, Except.error.injEq] at h
    rw [← h.2, hfsA]
  | ok files =>
    replace h := (bind_of_ok hp).symm.trans h
    rcases hro : runOps 0 ops files env sA with ⟨rr, sB⟩
    have hfsB : sB.fs = sA.fs := by
      have hh := fsPres_runOps ops 0 files env sA
      rw [hro] at hh
      exact hh
    cases rr with
    | error er =>
      replace h := (bind_of_error hro).symm.trans h
      simp only [Prod.mk.injEq, Except.error.injEq] at h
      rw [← h.2, hfsB, hfsA]
    | ok current₀ =>
      replace h := (bind_of_ok hro).symm.trans h
      rcases hca : convertAll (opts.output_format.getD FileFormat.wav) current₀ env sB
        with ⟨rc, sC⟩
      have hfsC : sC.fs = sB.fs := by
        have hh := fsPres_convertAll (opts.output_format.getD FileFormat.wav) current₀ env sB
        rw [hca] at hh
        exact hh
      cases rc with
      | error ec =>
        replace h := (bind_of_error hca).symm.trans h
        simp only [Prod.mk.injEq, Except.error.injEq] at h
        rw [← h.2, hfsC, hfsB, hfsA]
      | ok current =>
        replace h := (bind_of_ok hca).symm.trans h
        rw [finalizeChannels_err_fs h, hfsC, hfsB, hfsA]

/-- C10: with `overwrite` set and a file already at the requested
output path, the pre-existing file is deleted before probing or any
operation runs, so a run that fails at any later stage ends with no
file at the output path — the old file is not restored. -/
theorem overwrite_unlink_not_restored :
    ∀ (env : Env) (s : St) (ops : List CDPOperation) (inputs : List FPath)
      (output : FPath) (opts : RunOpts) (e : Err),
      opts.overwrite = true →
      output ∈ s.fs →
      (Pipeline.run ops inputs output opts env s).1 = .error e →
      output ∉ ((Pipeline.run ops inputs output opts env s).2).fs := by
  intro env s ops inputs output opts e hov hmem herr hout
  have hPR : Pipeline.run ops inputs output opts env s
      = ((runBody ops inputs output opts env
            (if opts.overwrite ∧ output ∈ s.fs then unlinkFs output s else s)).1,
         cleanupSt opts.keep_temp
           (runBody ops inputs output opts env
             (if opts.overwrite ∧ output ∈ s.fs then unlinkFs output s else s)).2) := rfl
  rw [if_pos ⟨hov, hmem⟩] at hPR
  rcases hrb : runBody ops inputs output opts env (unlinkFs output s) with ⟨rb, sb⟩
  rw [hrb] at hPR
  rw [hPR] at herr hout
  replace herr : rb = .error e := herr
  subst herr
  replace hout : output ∈ (cleanupSt opts.keep_temp sb).fs := hout
  rw [cleanupSt_fs] at hout
  rw [runBody_err_fs hrb] at hout
  exact mem_unlinkFs_self output s hout

/-- Witness for C10: `overwrite` on, a stale file at the output path,
and a run that fails because its input path does not exist — the stale
file is gone afterwards. -/
theorem overwrite_unlink_not_restored_witness :
    (⟨"", "out", "wav"⟩ : FPath) ∉
      ((Pipeline.run [] [⟨"", "absent", "wav"⟩] ⟨"", "out", "wav"⟩ { overwrite := true }
        c2Env ⟨0, [], [], [], [], [⟨"", "out", "wav"⟩]⟩).2).fs :=
  overwrite_unlink_not_restored c2Env ⟨0, [], [], [], [], [⟨"", "out", "wav"⟩]⟩ []
    [⟨"", "absent", "wav"⟩] ⟨"", "out", "wav"⟩ { overwrite := true }
    (.fileNotFound "Input file not found: absent.wav")
    rfl (by decide) (by decide)

end Cdp
